import Mathlib

/-!
A verification development for the `type-explorer` runtime type analyzer
(`TypeAnalyzer` in `src/index.ts`).  The JavaScript value graph is modelled
shallowly: primitive values are carried directly, composite values live on an
explicit heap addressed by naturals, so that the reference identity used by the
analyzer's `WeakSet`-based cycle detection is observable.  The analyzer itself
is translated function by function: `analyze` (dispatch plus guards),
`handleObject`, `handleArray`, `analyzeArrayElements`, and the built-in
named-composite handlers (Date, RegExp, Map, Set, Promise, Error, typed
arrays).  JavaScript exceptions are modelled with `Except String`: property
reads and caller-registered custom handlers may throw, and the analyzer's
`try`/`catch` blocks convert a thrown value into an `error` result exactly
where the source does.

The recursion of `analyze` is bounded by the source's own depth guard
(`context.depth > this.config.maxDepth`): every recursive descent increments
`depth` by exactly one, so the recursion depth below a call at depth `d` is at
most `maxDepth + 1 - d`.  The Lean translation makes that bound explicit as a
structural fuel argument; `analyze` instantiates the fuel with exactly
`maxDepth + 1 - depth`, which the depth guard keeps from ever reaching the
(unreachable) exhaustion branch.
-/

namespace TypeExplorer

/-- A path component: the analyzer records property names (strings) and array
indices (numbers) on `context.path`.  Symbol-keyed properties are recorded
under their description string (`sym.description || "Symbol"`), so paths never
contain symbols themselves. -/
inductive Key where
  | str (s : String)
  | idx (n : Nat)
deriving DecidableEq

/-- A JavaScript value.  Primitives (and functions, whose `typeof` is not
`"object"`) are immediate; objects, arrays and other composites are references
into an explicit heap, making reference identity available for the visited
set.  Function values carry the data the function handler reports: `name`,
`constructor.name` (used for the async/generator checks) and the declared
parameter name list (the result of the source-text introspection performed by
`analyzeFunctionParameters`, which is not re-modelled at the string level). -/
inductive Value where
  | null
  | undef
  | str (s : String)
  | num (n : Int)
  | boolV (b : Bool)
  | bigintV (n : Int)
  | sym (description : Option String)
  | fn (name : String) (ctorName : String) (params : List String)
  | ref (a : Nat)
deriving DecidableEq

/-- One own string-keyed property of an object.  `enumerable` distinguishes
`Object.keys` from `Object.getOwnPropertyNames` enumeration;
`hasGetter`/`hasSetter` model the property descriptor's accessor slots; `read`
is the result of actually reading the property, which may throw (a throwing
getter, for example, when `includeGettersSetters` is off). -/
structure PropEntry where
  name : String
  enumerable : Bool
  hasGetter : Bool
  hasSetter : Bool
  read : Except String Value

/-- One own symbol-keyed property: `strForm` is `sym.toString()` (the record
key), `description` is `sym.description`, `read` the property read. -/
structure SymEntry where
  strForm : String
  description : Option String
  read : Except String Value

/-- A heap object: the composite values the analyzer distinguishes.  A generic
object carries `constructor?.name` (`none` when absent), its own properties,
symbol properties, and prototype data: `protoCtor = none` models a prototype
that is absent or is `Object.prototype` (no `prototype` field emitted),
`protoCtor = some c` a non-default prototype whose `constructor?.name` is `c`,
with `protoMethods` the names of its own function-valued members. -/
inductive HeapObj where
  | obj (ctorName : Option String) (props : List PropEntry) (symProps : List SymEntry)
      (protoCtor : Option (Option String)) (protoMethods : List String)
  | arr (elems : List Value)
  | date (iso : String) (timestamp : Int)
  | regexp (pattern flags : String)
  | mapO (entries : List (Value × Value))
  | setO (elems : List Value)
  | promise
  | errObj (name msg : String) (stack : Option String)
  | typedArr (ctorName : String) (length byteLength byteOffset : Nat) (isShared : Bool)

/-- The heap: total map from addresses to heap objects. -/
def Heap : Type := Nat → HeapObj

/-!
`AnalysisResult` is the tagged union the analyzer produces.  Because Lean
nested inductives do not support derived decidable equality (needed to model
the `JSON.stringify`-keyed grouping in `analyzeArrayElements`), the lists and
optional lists of results nested inside a result are given as a mutual family
of bespoke list/option types; conversions to ordinary lists are defined below.
-/
mutual
/-- The analyzer's result type, one variant per type discriminator; every
variant carries its `path`. -/
inductive AnalysisResult where
  | errorR (msg : String) (path : List Key)
  | maxDepthReached (path : List Key)
  | circularReference (path : List Key)
  | nullR (path : List Key)
  | undefinedR (path : List Key)
  | primitive (tag : String) (value : Value) (path : List Key)
  | symbolR (description : Option String) (path : List Key)
  | functionR (name : String) (isAsync isGenerator : Bool)
      (parameters : Option (Nat × List String)) (path : List Key)
  | accessorR (hasGetter hasSetter : Bool) (path : List Key)
  | arrayR (length : Nat) (elementTypes : GroupList) (path : List Key)
  | objectR (ctor : String) (properties : PropResults)
      (symbolProperties : OptPropResults)
      (proto : Option (Option String × Option (List String))) (path : List Key)
  | dateR (value : String) (timestamp : Int) (path : List Key)
  | regexpR (pattern flags : String) (path : List Key)
  | mapR (size : Nat) (entries : OptPairResults) (path : List Key)
  | setR (size : Nat) (values : OptResultList) (path : List Key)
  | promiseR (path : List Key)
  | errorObjR (name msg : String) (stack : Option String) (path : List Key)
  | typedArrayR (tag : String) (length byteLength byteOffset : Nat)
      (isShared : Bool) (path : List Key)
deriving DecidableEq

/-- Element-type groups of an `array` result: representative result,
`frequency`, `count`, `indices`. -/
inductive GroupList where
  | nil
  | cons (type : AnalysisResult) (frequency : Rat) (count : Nat)
      (indices : List Nat) (tl : GroupList)
deriving DecidableEq

/-- Name-keyed sub-results (object `properties` / `symbolProperties`). -/
inductive PropResults where
  | nil
  | cons (name : String) (r : AnalysisResult) (tl : PropResults)
deriving DecidableEq

/-- An optional `PropResults` (the `symbolProperties` field, present only when
non-empty). -/
inductive OptPropResults where
  | noneP
  | someP (l : PropResults)
deriving DecidableEq

/-- Key/value result pairs (Map `entries`). -/
inductive PairResults where
  | nil
  | cons (key value : AnalysisResult) (tl : PairResults)
deriving DecidableEq

/-- An optional `PairResults` (the Map `entries` field, omitted past the depth
bound). -/
inductive OptPairResults where
  | nonePR
  | somePR (l : PairResults)
deriving DecidableEq

/-- A plain sequence of results (Set `values`). -/
inductive ResultList where
  | nil
  | cons (r : AnalysisResult) (tl : ResultList)
deriving DecidableEq

/-- An optional `ResultList` (the Set `values` field, omitted past the depth
bound). -/
inductive OptResultList where
  | noneR
  | someR (l : ResultList)
deriving DecidableEq
end

/-- `AnalyzerConfig` (the `customTypes` table is a separate parameter of the
analysis functions below, since it holds functions). -/
structure Config where
  maxDepth : Nat
  includeMethods : Bool
  includeGettersSetters : Bool
  includePrototype : Bool
  includePrivateProps : Bool
deriving DecidableEq

/-- A caller-registered custom type handler: receives the value, the current
depth and path (the context), and either returns a result or throws. -/
def CHandler : Type := Value → Nat → List Key → Except String AnalysisResult

/-- The caller-registered part of `config.customTypes`, keyed by class name.
Entries here shadow the built-in named-composite handlers, mirroring
`Map.set` overwriting the entries installed by `registerBuiltInHandlers`. -/
def CustomTable : Type := List (String × CHandler)

/-- The path recorded on a result (every variant carries one). -/
def pathOf : AnalysisResult → List Key
  | .errorR _ p => p
  | .maxDepthReached p => p
  | .circularReference p => p
  | .nullR p => p
  | .undefinedR p => p
  | .primitive _ _ p => p
  | .symbolR _ p => p
  | .functionR _ _ _ _ p => p
  | .accessorR _ _ p => p
  | .arrayR _ _ p => p
  | .objectR _ _ _ _ p => p
  | .dateR _ _ p => p
  | .regexpR _ _ p => p
  | .mapR _ _ p => p
  | .setR _ _ p => p
  | .promiseR p => p
  | .errorObjR _ _ _ p => p
  | .typedArrayR _ _ _ _ _ p => p

/-- View a `PropResults` as an ordinary association list. -/
def PropResults.toList : PropResults → List (String × AnalysisResult)
  | .nil => []
  | .cons n r tl => (n, r) :: tl.toList

/-- Build a `PropResults` from an ordinary association list. -/
def PropResults.ofList : List (String × AnalysisResult) → PropResults
  | [] => .nil
  | (n, r) :: tl => .cons n r (ofList tl)

/-- View an `OptPropResults` as an `Option` of an association list. -/
def OptPropResults.toOpt : OptPropResults → Option (List (String × AnalysisResult))
  | .noneP => none
  | .someP l => some l.toList

/-- View a `PairResults` as an ordinary list of pairs. -/
def PairResults.toList : PairResults → List (AnalysisResult × AnalysisResult)
  | .nil => []
  | .cons k v tl => (k, v) :: tl.toList

/-- Build a `PairResults` from an ordinary list of pairs. -/
def PairResults.ofList : List (AnalysisResult × AnalysisResult) → PairResults
  | [] => .nil
  | (k, v) :: tl => .cons k v (ofList tl)

/-- View an `OptPairResults` as an `Option` of a list of pairs. -/
def OptPairResults.toOpt : OptPairResults → Option (List (AnalysisResult × AnalysisResult))
  | .nonePR => none
  | .somePR l => some l.toList

/-- View a `ResultList` as an ordinary list. -/
def ResultList.toList : ResultList → List AnalysisResult
  | .nil => []
  | .cons r tl => r :: tl.toList

/-- Build a `ResultList` from an ordinary list. -/
def ResultList.ofList : List AnalysisResult → ResultList
  | [] => .nil
  | r :: tl => .cons r (ofList tl)

/-- View an `OptResultList` as an `Option (List AnalysisResult)`. -/
def OptResultList.toOpt : OptResultList → Option (List AnalysisResult)
  | .noneR => none
  | .someR l => some l.toList

/-- View a `GroupList` as a list of (type, frequency, count, indices). -/
def GroupList.toList : GroupList → List (AnalysisResult × Rat × Nat × List Nat)
  | .nil => []
  | .cons t f c i tl => (t, f, c, i) :: tl.toList

/-- Build a `GroupList` from a list of (type, frequency, count, indices). -/
def GroupList.ofList : List (AnalysisResult × Rat × Nat × List Nat) → GroupList
  | [] => .nil
  | (t, f, c, i) :: tl => .cons t f c i (GroupList.ofList tl)

/-- JavaScript truthiness of `value?.constructor?.name`: an absent name and
the empty string are falsy. -/
def strTruthy : Option String → Bool
  | some s => s ≠ ""
  | none => false

/-- JavaScript `x || d` on an optional string (`undefined` and `""` fall back). -/
def jsOr (c : Option String) (d : String) : String :=
  match c with
  | some s => if s = "" then d else s
  | none => d

/-- `context.visited.add(value)`: `WeakSet` insertion (idempotent). -/
def visitedAdd (a : Nat) (vis : List Nat) : List Nat :=
  if a ∈ vis then vis else a :: vis

/-- The class names for which `registerBuiltInHandlers` installs entries in
`config.customTypes`. -/
def builtinNames : List String :=
  ["Date", "RegExp", "Map", "Set", "Promise", "Error",
   "Int8Array", "Uint8Array", "Uint8ClampedArray", "Int16Array", "Uint16Array",
   "Int32Array", "Uint32Array", "Float32Array", "Float64Array",
   "BigInt64Array", "BigUint64Array"]

/-- The `config.customTypes` lookup guarded by `if (value?.constructor?.name)`:
no lookup happens for an absent or empty constructor name. -/
def lookupCustom (custom : CustomTable) (c : Option String) : Option CHandler :=
  match c with
  | some s => if s = "" then none else List.lookup s custom
  | none => none

/-- Invoking a caller-registered handler under `analyze`'s `try`/`catch`: a
throw becomes an `error` result at this node's path. -/
def runCustom (h : CHandler) (v : Value) (depth : Nat) (path : List Key)
    (vis : List Nat) : AnalysisResult × List Nat :=
  match h v depth path with
  | .ok r => (r, vis)
  | .error e => (.errorR e path, vis)

/-!
The element aggregation of `analyzeArrayElements`.  The source builds a
`Map<string, {type, count, indices}>` keyed by `JSON.stringify(elementType)`;
since the serialized description determines the result structurally (every
result is built with a fixed field order), the key comparison is modelled as
decidable equality of `AnalysisResult` values — note this includes the
result's `path` field, exactly as `JSON.stringify` does.  JS `Map` iteration
is insertion-ordered, so the map is an association list extended at the tail.
`Array.prototype.sort` with comparator `(a, b) => b.count - a.count` is a
stable sort; the stable insertion sort below produces the unique
descending-by-count arrangement in which equal counts keep first-encountered
order.
-/

/-- One `typeMap` update step of `analyzeArrayElements.forEach`: bump the
entry with structurally equal `type`, or append a fresh entry. -/
def updateTypeMap : List (AnalysisResult × Nat × List Nat) → AnalysisResult → Nat →
    List (AnalysisResult × Nat × List Nat)
  | [], r, i => [(r, 1, [i])]
  | (r0, c, idxs) :: rest, r, i =>
    if r0 = r then (r0, c + 1, idxs ++ [i]) :: rest
    else (r0, c, idxs) :: updateTypeMap rest r i

/-- The `forEach` of `analyzeArrayElements` viewed on the per-element
results: fold them in order, tracking the element index, updating the type
map at each step. -/
def buildTypeMapFrom (m : List (AnalysisResult × Nat × List Nat)) (i : Nat) :
    List AnalysisResult → List (AnalysisResult × Nat × List Nat)
  | [] => m
  | r :: rest => buildTypeMapFrom (updateTypeMap m r i) (i + 1) rest

/-- The full `typeMap` built from the per-element results in order. -/
def buildTypeMap (rs : List AnalysisResult) : List (AnalysisResult × Nat × List Nat) :=
  buildTypeMapFrom [] 0 rs

/-- The degenerate group list that `analyzeArrayElements` actually produces
(see `claim_c1_grouping_code_bug`): starting at index `i`, every result is
its own group with count 1, frequency `1 / len`, and a singleton index list. -/
def singleGroups (len i : Nat) : List AnalysisResult →
    List (AnalysisResult × Rat × Nat × List Nat)
  | [] => []
  | r :: rest => (r, mkRat 1 len, 1, [i]) :: singleGroups len (i + 1) rest

/-- `singleGroups` without the frequency decoration: the raw type-map entries. -/
def singleEntries (i : Nat) : List AnalysisResult → List (AnalysisResult × Nat × List Nat)
  | [] => []
  | r :: rest => (r, 1, [i]) :: singleEntries (i + 1) rest

/-- Stable insertion of a group into a descending-by-count list: the inserted
group goes before the first strictly-smaller-or-equal?  No: before the first
group of strictly smaller count than its own only when its count is at least
the head's, keeping earlier groups with equal counts in front.  (Insertion
from the front of the original order, so `≥` places an earlier group before
later groups of equal count.) -/
def insertByCount (g : AnalysisResult × Rat × Nat × List Nat) :
    List (AnalysisResult × Rat × Nat × List Nat) →
    List (AnalysisResult × Rat × Nat × List Nat)
  | [] => [g]
  | h :: t => if g.2.2.1 ≥ h.2.2.1 then g :: h :: t else h :: insertByCount g t

/-- Stable sort by descending `count` (the behaviour of the source's
`.sort((a, b) => b.count - a.count)` on the insertion-ordered group list). -/
def sortByCountDesc : List (AnalysisResult × Rat × Nat × List Nat) →
    List (AnalysisResult × Rat × Nat × List Nat)
  | [] => []
  | g :: t => insertByCount g (sortByCountDesc t)

/-- The pure tail of `analyzeArrayElements`: group the per-element results,
attach `frequency = count / arr.length` (as an exact rational, written
`mkRat count len`, which equals the division `count / len`; see
`groupElems_frequency_div`), sort by descending count. -/
def groupElems (len : Nat) (rs : List AnalysisResult) :
    List (AnalysisResult × Rat × Nat × List Nat) :=
  sortByCountDesc ((buildTypeMap rs).map
    (fun e => (e.1, mkRat (e.2.1 : Int) len, e.2.1, e.2.2)))

/-- JS `prop.startsWith("#")`, modelled as a check on the name's first
character (the library's `String.startsWith` does not reduce in the kernel). -/
def startsWithHash (s : String) : Bool :=
  match s.data with
  | [] => false
  | c :: _ => c = '#'

/-- The property-name selection of `handleObject`: `Object.keys` (enumerable
own names) unless `includePrivateProps`, then the `#`-prefix skip. -/
def selectProps (cfg : Config) (props : List PropEntry) : List PropEntry :=
  (if cfg.includePrivateProps then props else props.filter (fun p => p.enumerable)).filter
    (fun p => cfg.includePrivateProps || !(startsWithHash p.name))

/-- `sym.description || "Symbol"`, the path key used for symbol properties. -/
def symKey (d : Option String) : String :=
  match d with
  | some s => if s = "" then "Symbol" else s
  | none => "Symbol"

/-- The property loop of `handleObject`, parameterized by the child analysis
function `f` (which already carries `depth + 1`).  Accessor-backed properties
short-circuit to the `accessor` variant when `includeGettersSetters`; a
throwing read is caught per property into an `error` result at that
property's path; the visited set is threaded left to right. -/
def runProps (f : Value → List Key → List Nat → AnalysisResult × List Nat)
    (cfg : Config) (basePath : List Key) :
    List PropEntry → List Nat → List (String × AnalysisResult) × List Nat
  | [], vis => ([], vis)
  | p :: rest, vis =>
    if cfg.includeGettersSetters && (p.hasGetter || p.hasSetter) then
      let rec0 := runProps f cfg basePath rest vis
      ((p.name, .accessorR p.hasGetter p.hasSetter (basePath ++ [.str p.name])) :: rec0.1,
        rec0.2)
    else
      match p.read with
      | .ok v =>
        let c := f v (basePath ++ [.str p.name]) vis
        let rec0 := runProps f cfg basePath rest c.2
        ((p.name, c.1) :: rec0.1, rec0.2)
      | .error e =>
        let rec0 := runProps f cfg basePath rest vis
        ((p.name, .errorR e (basePath ++ [.str p.name])) :: rec0.1, rec0.2)

/-- The symbol-property loop of `handleObject`: path extended by
`sym.description || "Symbol"`, record keyed by `sym.toString()`, per-property
catch as for string properties. -/
def runSymProps (f : Value → List Key → List Nat → AnalysisResult × List Nat)
    (basePath : List Key) :
    List SymEntry → List Nat → List (String × AnalysisResult) × List Nat
  | [], vis => ([], vis)
  | p :: rest, vis =>
    match p.read with
    | .ok v =>
      let c := f v (basePath ++ [.str (symKey p.description)]) vis
      let rec0 := runSymProps f basePath rest c.2
      ((p.strForm, c.1) :: rec0.1, rec0.2)
    | .error e =>
      let rec0 := runSymProps f basePath rest vis
      ((p.strForm, .errorR e (basePath ++ [.str (symKey p.description)])) :: rec0.1, rec0.2)

/-- The element loop of `analyzeArrayElements` over the enumerated elements:
each element is analyzed with the path extended by its index. -/
def runElems (f : Value → List Key → List Nat → AnalysisResult × List Nat)
    (basePath : List Key) :
    List (Nat × Value) → List Nat → List AnalysisResult × List Nat
  | [], vis => ([], vis)
  | (i, v) :: rest, vis =>
    let c := f v (basePath ++ [.idx i]) vis
    let rec0 := runElems f basePath rest c.2
    (c.1 :: rec0.1, rec0.2)

/-- The entry loop of the built-in Map handler: key then value, each analyzed
at the Map's own path (the source does not extend the path here). -/
def runPairs (f : Value → List Key → List Nat → AnalysisResult × List Nat)
    (basePath : List Key) :
    List (Value × Value) → List Nat → List (AnalysisResult × AnalysisResult) × List Nat
  | [], vis => ([], vis)
  | (k, v) :: rest, vis =>
    let ck := f k basePath vis
    let cv := f v basePath ck.2
    let rec0 := runPairs f basePath rest cv.2
    ((ck.1, cv.1) :: rec0.1, rec0.2)

/-- The member loop of the built-in Set handler: each member analyzed at the
Set's own path (no path extension in the source). -/
def runVals (f : Value → List Key → List Nat → AnalysisResult × List Nat)
    (basePath : List Key) :
    List Value → List Nat → List AnalysisResult × List Nat
  | [], vis => ([], vis)
  | v :: rest, vis =>
    let c := f v basePath vis
    let rec0 := runVals f basePath rest c.2
    (c.1 :: rec0.1, rec0.2)

/-- The post-guard body of `TypeAnalyzer.analyze`, parameterized by the
function `child` used for every recursive descent (which already carries
`depth + 1`; the `depth` parameter here is the current call's depth, consulted
by the Map/Set handlers and passed to custom handlers).  The dispatch order is
the source's: `null`, non-object `typeof` kinds, `Array.isArray`, visited-set
check, named-composite (custom) table, generic object handler. -/
def dispatch (cfg : Config) (custom : CustomTable) (heap : Heap)
    (child : Value → List Key → List Nat → AnalysisResult × List Nat) :
    Value → Nat → List Key → List Nat → AnalysisResult × List Nat
  | v, depth, path, vis =>
        match v with
        | .null => (.nullR path, vis)
        | .undef => (.undefinedR path, vis)
        | .str s => (.primitive "string" (.str s) path, vis)
        | .num n => (.primitive "number" (.num n) path, vis)
        | .boolV b => (.primitive "boolean" (.boolV b) path, vis)
        | .bigintV n => (.primitive "bigint" (.bigintV n) path, vis)
        | .sym d => (.symbolR d path, vis)
        | .fn name ctorName params =>
          (.functionR (if name = "" then "(anonymous)" else name)
            (ctorName = "AsyncFunction") (ctorName = "GeneratorFunction")
            (if cfg.includeMethods then some (params.length, params) else none) path, vis)
        | .ref a =>
          match heap a with
          | .arr elems =>
            -- Array.isArray dispatch happens before the visited-set check.
            let vis1 := visitedAdd a vis
            let r := runElems child path elems.enum vis1
            (.arrayR elems.length (GroupList.ofList (groupElems elems.length r.1)) path, r.2)
          | .obj c props sprops protoC protoM =>
            if a ∈ vis then (.circularReference path, vis)
            else
              match lookupCustom custom c with
              | some h => runCustom h (.ref a) depth path vis
              | none =>
                if strTruthy c && builtinNames.contains (jsOr c "") then
                  -- A plain object whose constructor name collides with a
                  -- built-in entry reaches that built-in handler; on the wrong
                  -- shape the handler throws (e.g. value.toISOString is not a
                  -- function) or degenerates, and a throw is caught by
                  -- analyze's catch.  No claim touches this corner; it is
                  -- modelled as the caught error.
                  (.errorR "built-in handler applied to plain object" path, vis)
                else
                  -- handleObject
                  let vis1 := visitedAdd a vis
                  let pr := runProps child cfg path (selectProps cfg props) vis1
                  let sr := runSymProps child path sprops pr.2
                  (.objectR (jsOr c "Object") (PropResults.ofList pr.1)
                    (if sr.1.length > 0 then .someP (PropResults.ofList sr.1) else .noneP)
                    (if cfg.includePrototype then
                      match protoC with
                      | some pc => some (pc, if cfg.includeMethods then some protoM else none)
                      | none => none
                    else none)
                    path, sr.2)
          | .date iso ts =>
            if a ∈ vis then (.circularReference path, vis)
            else
              match List.lookup "Date" custom with
              | some h => runCustom h (.ref a) depth path vis
              | none => (.dateR iso ts path, vis)
          | .regexp pat fl =>
            if a ∈ vis then (.circularReference path, vis)
            else
              match List.lookup "RegExp" custom with
              | some h => runCustom h (.ref a) depth path vis
              | none => (.regexpR pat fl path, vis)
          | .mapO entries =>
            if a ∈ vis then (.circularReference path, vis)
            else
              match List.lookup "Map" custom with
              | some h => runCustom h (.ref a) depth path vis
              | none =>
                if cfg.maxDepth > depth then
                  let r := runPairs child path entries vis
                  (.mapR entries.length (.somePR (PairResults.ofList r.1)) path, r.2)
                else (.mapR entries.length .nonePR path, vis)
          | .setO elems =>
            if a ∈ vis then (.circularReference path, vis)
            else
              match List.lookup "Set" custom with
              | some h => runCustom h (.ref a) depth path vis
              | none =>
                if cfg.maxDepth > depth then
                  let r := runVals child path elems vis
                  (.setR elems.length (.someR (ResultList.ofList r.1)) path, r.2)
                else (.setR elems.length .noneR path, vis)
          | .promise =>
            if a ∈ vis then (.circularReference path, vis)
            else
              match List.lookup "Promise" custom with
              | some h => runCustom h (.ref a) depth path vis
              | none => (.promiseR path, vis)
          | .errObj n m st =>
            if a ∈ vis then (.circularReference path, vis)
            else
              match List.lookup "Error" custom with
              | some h => runCustom h (.ref a) depth path vis
              | none => (.errorObjR n m st path, vis)
          | .typedArr t len bl bo sh =>
            if a ∈ vis then (.circularReference path, vis)
            else
              match List.lookup t custom with
              | some h => runCustom h (.ref a) depth path vis
              | none => (.typedArrayR t len bl bo sh path, vis)

/-- `TypeAnalyzer.analyze` with an explicit structural fuel bounding the
recursion depth: depth guard first, then one `dispatch` step whose recursive
descents run at `depth + 1` with one unit of fuel less.  Every recursive
descent increments `depth` by exactly one, so instantiating the fuel with
`maxDepth + 1 - depth` (see `analyze`) keeps the exhaustion branch
unreachable: it is only consulted after the depth guard has passed, i.e. when
`depth ≤ maxDepth`, where `maxDepth + 1 - depth ≥ 1` (see `analyze_eq`). -/
def analyzeF (cfg : Config) (custom : CustomTable) (heap : Heap) :
    Nat → Value → Nat → List Key → List Nat → AnalysisResult × List Nat
  | fuel, v, depth, path, vis =>
    if depth > cfg.maxDepth then (.maxDepthReached path, vis)
    else
      match fuel with
      | 0 => (.errorR "analyzer fuel exhausted" path, vis)
      | fuel + 1 =>
        dispatch cfg custom heap
          (fun v2 p2 vs => analyzeF cfg custom heap fuel v2 (depth + 1) p2 vs)
          v depth path vis

/-- `TypeAnalyzer.analyze` at an arbitrary context: the fuel is instantiated
with the exact recursion bound `maxDepth + 1 - depth` enforced by the depth
guard. -/
def analyze (cfg : Config) (custom : CustomTable) (heap : Heap)
    (v : Value) (depth : Nat) (path : List Key) (vis : List Nat) :
    AnalysisResult × List Nat :=
  analyzeF cfg custom heap (cfg.maxDepth + 1 - depth) v depth path vis

/-- `analyze` at the default context `{depth: 0, path: [], visited: new WeakSet()}`. -/
def analyzeTop (cfg : Config) (custom : CustomTable) (heap : Heap) (v : Value) :
    AnalysisResult :=
  (analyze cfg custom heap v 0 [] []).1

/-!  Specification-side definitions used to state the claims. -/

/-- Whether a heap object is dispatched to the generic object handler or the
array handler (the only two handlers that add their value to the visited set). -/
def HeapObj.isObjArr : HeapObj → Bool
  | .obj _ _ _ _ _ => true
  | .arr _ => true
  | _ => false

/-- A heap none of whose objects is a generic object or an array: every value
in it is handled by a named-composite handler. -/
def noObjArr (heap : Heap) : Prop :=
  ∀ n : Nat, (heap n).isObjArr = false

/-- Whether a heap object is an array (dispatched by the `Array.isArray` test,
which precedes the visited-set check). -/
def HeapObj.isArr : HeapObj → Bool
  | .arr _ => true
  | _ => false

mutual
/-- No node anywhere in a result tree is a `circular-reference`. -/
def AnalysisResult.noCirc : AnalysisResult → Bool
  | .circularReference _ => false
  | .arrayR _ g _ => g.noCirc
  | .objectR _ pr spr _ _ => pr.noCirc && spr.noCirc
  | .mapR _ e _ => e.noCirc
  | .setR _ vl _ => vl.noCirc
  | _ => true

/-- `noCirc` on element-type groups. -/
def GroupList.noCirc : GroupList → Bool
  | .nil => true
  | .cons t _ _ _ tl => t.noCirc && tl.noCirc

/-- `noCirc` on name-keyed sub-results. -/
def PropResults.noCirc : PropResults → Bool
  | .nil => true
  | .cons _ r tl => r.noCirc && tl.noCirc

/-- `noCirc` on an optional `PropResults`. -/
def OptPropResults.noCirc : OptPropResults → Bool
  | .noneP => true
  | .someP l => l.noCirc

/-- `noCirc` on key/value result pairs. -/
def PairResults.noCirc : PairResults → Bool
  | .nil => true
  | .cons k v tl => k.noCirc && v.noCirc && tl.noCirc

/-- `noCirc` on an optional `PairResults`. -/
def OptPairResults.noCirc : OptPairResults → Bool
  | .nonePR => true
  | .somePR l => l.noCirc

/-- `noCirc` on a plain sequence of results. -/
def ResultList.noCirc : ResultList → Bool
  | .nil => true
  | .cons r tl => r.noCirc && tl.noCirc

/-- `noCirc` on an optional `ResultList`. -/
def OptResultList.noCirc : OptResultList → Bool
  | .noneR => true
  | .someR l => l.noCirc
end

/-- A plain enumerable data property (no accessor, read succeeds). -/
def dataProp (name : String) (v : Value) : PropEntry :=
  ⟨name, true, false, false, .ok v⟩

/-- An enumerable property whose read throws `msg`. -/
def throwProp (name msg : String) : PropEntry :=
  ⟨name, true, false, false, .error msg⟩

/-- The STANDARD-like configuration used in the concrete examples:
depth 10, all detail toggles on except private properties. -/
def cfgStd : Config := ⟨10, true, true, true, false⟩

/-- A depth-1 configuration (used by the depth-boundary examples). -/
def cfgD1 : Config := ⟨1, true, true, true, false⟩

/-- A self-referential array: `const a = []; a.push(a)`. -/
def heapSelfArr : Heap := fun _ => .arr [.ref 0]

/-- `{a: {b: {c: 1}}}` rooted at address 0. -/
def heapNested : Heap := fun n =>
  match n with
  | 0 => .obj (some "Object") [dataProp "a" (.ref 1)] [] none []
  | 1 => .obj (some "Object") [dataProp "b" (.ref 2)] [] none []
  | _ => .obj (some "Object") [dataProp "c" (.num 1)] [] none []

/-- A self-referential plain object: `const o = {}; o.self = o`. -/
def heapSelfObj : Heap := fun _ =>
  .obj (some "Object") [dataProp "self" (.ref 0)] [] none []

/-- A one-entry Map `new Map([[1, 2]])` rooted at address 0. -/
def heapMap1 : Heap := fun _ => .mapO [(.num 1, .num 2)]

/-- A Map that contains itself as a value: a cycle passing only through a
named-composite handler. -/
def heapSelfMap : Heap := fun _ => .mapO [(.num 1, .ref 0)]

/-- Two sibling properties sharing one (non-cyclic) array:
`const shared = [7]; const o = {x: shared, y: shared}`. -/
def heapShared : Heap := fun n =>
  match n with
  | 0 => .obj (some "Object") [dataProp "x" (.ref 1), dataProp "y" (.ref 1)] [] none []
  | _ => .arr [.num 7]

/-- Two sibling properties sharing one (non-cyclic) constructor-less object
(`Object.create(null)` style, so no named-composite lookup applies):
`const shared = ...; const o = {x: shared, y: shared}`. -/
def heapSharedObj : Heap := fun n =>
  match n with
  | 0 => .obj none [dataProp "x" (.ref 1), dataProp "y" (.ref 1)] [] none []
  | _ => .obj none [] [] none []

/-- `[1, "x", 1]` rooted at address 0: two structural element shapes, the
number occurring twice. -/
def heapTwoShapes : Heap := fun _ => .arr [.num 1, .str "x", .num 1]

/-- An instance of a user class `Point` (with one data property) at address 0. -/
def heapPoint : Heap := fun _ =>
  .obj (some "Point") [dataProp "x" (.num 3)] [] (some (some "Point")) []

/-- A well-behaved caller-registered handler for class `Point`: returns a
fixed custom description at the context's path. -/
def pointHandler : CHandler := fun _ _ path =>
  .ok (.primitive "point" (.num 99) path)

/-- A caller-registered handler that always throws. -/
def boomHandler : CHandler := fun _ _ _ => .error "boom"

/-!  Theorems. -/

/-- The `frequency` attached by `groupElems` is exactly the rational division
`count / arr.length` of the source. -/
theorem groupElems_frequency_div (c len : Nat) :
    mkRat (c : Int) len = (c : Rat) / (len : Rat) := by
  rw [Rat.mkRat_eq_div]
  norm_num

/-- When the depth guard fires (`context.depth > maxDepth`), `analyze` returns
`max-depth-reached` at `context.path` without touching the visited set. -/
theorem analyze_depth_exceeded (cfg : Config) (custom : CustomTable) (heap : Heap)
    (v : Value) (depth : Nat) (path : List Key) (vis : List Nat)
    (h : depth > cfg.maxDepth) :
    analyze cfg custom heap v depth path vis = (.maxDepthReached path, vis) := by
  unfold analyze analyzeF
  rw [if_pos h]

/-- One-step unfolding of `analyze` below the depth bound: the fuel invariant
`fuel = maxDepth + 1 - depth` makes every recursive descent of the fueled
function again an `analyze` call, at `depth + 1`.  In particular the fuel
exhaustion branch of `analyzeF` is unreachable from `analyze`. -/
theorem analyze_eq (cfg : Config) (custom : CustomTable) (heap : Heap)
    (v : Value) (depth : Nat) (path : List Key) (vis : List Nat)
    (h : depth ≤ cfg.maxDepth) :
    analyze cfg custom heap v depth path vis =
      dispatch cfg custom heap
        (fun v2 p2 vs => analyze cfg custom heap v2 (depth + 1) p2 vs)
        v depth path vis := by
  have e3 : (fun v2 p2 vs => analyze cfg custom heap v2 (depth + 1) p2 vs)
      = fun v2 p2 vs => analyzeF cfg custom heap (cfg.maxDepth - depth) v2 (depth + 1) p2 vs := by
    funext v2 p2 vs
    show analyzeF cfg custom heap (cfg.maxDepth + 1 - (depth + 1)) v2 (depth + 1) p2 vs = _
    congr 1
    omega
  rw [e3]
  show analyzeF cfg custom heap (cfg.maxDepth + 1 - depth) v depth path vis = _
  rw [show cfg.maxDepth + 1 - depth = (cfg.maxDepth - depth) + 1 from by omega]
  show (if depth > cfg.maxDepth then ((.maxDepthReached path : AnalysisResult), vis)
    else dispatch cfg custom heap
      (fun v2 p2 vs => analyzeF cfg custom heap (cfg.maxDepth - depth) v2 (depth + 1) p2 vs)
      v depth path vis) = _
  rw [if_neg (by omega)]

/-- With no caller-registered custom types, the custom-table lookup finds
nothing for any constructor name. -/
theorem lookupCustom_nil (c : Option String) : lookupCustom [] c = none := by
  cases c <;> simp [lookupCustom]

/-- Below the depth guard and with no caller-registered handlers, no dispatch
branch produces a `max-depth-reached` result at the top of its output: every
handler stamps its own variant. -/
theorem dispatch_fst_ne_mdr (cfg : Config) (heap : Heap)
    (child : Value → List Key → List Nat → AnalysisResult × List Nat)
    (v : Value) (depth : Nat) (path q : List Key) (vis : List Nat) :
    (dispatch cfg [] heap child v depth path vis).1 ≠ .maxDepthReached q := by
  cases v
  case ref a =>
    cases hh : heap a
    all_goals simp only [dispatch, hh, lookupCustom_nil, List.lookup_nil]
    all_goals repeat' split
    all_goals simp
  all_goals simp [dispatch]

/-- C2: for every value and context of the default analyzer, `analyze`
returns `max-depth-reached` at `context.path` if and only if `context.depth`
strictly exceeds `maxDepth`; and with `maxDepth = 1`, analyzing
`{a: {b: {c: 1}}}` analyzes property `a` at depth 1 normally but returns
`max-depth-reached` for `b` at depth 2 instead of descending into `c`. -/
theorem claim_c2_depth_guard_iff :
    (∀ (cfg : Config) (heap : Heap) (v : Value) (depth : Nat)
        (path : List Key) (vis : List Nat),
      (analyze cfg [] heap v depth path vis).1 = .maxDepthReached path ↔
        depth > cfg.maxDepth)
    ∧ analyzeTop cfgD1 [] heapNested (.ref 0) =
        .objectR "Object" (.cons "a" (.objectR "Object"
          (.cons "b" (.maxDepthReached [.str "a", .str "b"]) .nil) .noneP none
          [.str "a"]) .nil) .noneP none [] := by
  refine ⟨fun cfg heap v depth path vis => ⟨fun hres => ?_, fun hd => ?_⟩, by decide⟩
  · by_contra hd
    rw [analyze_eq cfg [] heap v depth path vis (by omega)] at hres
    exact dispatch_fst_ne_mdr cfg heap _ v depth path path vis hres
  · rw [analyze_depth_exceeded cfg [] heap v depth path vis hd]

/-- Witness for C2: applying the depth-guard direction at a concrete context
whose depth (5) exceeds the bound (1). -/
theorem claim_c2_depth_guard_iff_witness :
    (analyze cfgD1 [] heapNested (.ref 0) 5 [] []).1 = .maxDepthReached [] :=
  (claim_c2_depth_guard_iff.1 cfgD1 heapNested (.ref 0) 5 [] []).mpr (by decide)

/-- C7: the built-in Map/Set handlers attach the recursive `entries`/`values`
field if and only if `context.depth` is strictly below `maxDepth`; when the
field is omitted nothing is recursed and no depth marker is emitted in its
place, while `size` is reported in both cases. -/
theorem claim_c7_map_set_depth_gate :
    (∀ (cfg : Config) (custom : CustomTable) (heap : Heap) (a : Nat)
        (entries : List (Value × Value)) (depth : Nat) (path : List Key) (vis : List Nat),
      heap a = .mapO entries → a ∉ vis → List.lookup "Map" custom = none →
      depth ≤ cfg.maxDepth →
      analyze cfg custom heap (.ref a) depth path vis =
        if cfg.maxDepth > depth then
          (.mapR entries.length (.somePR (PairResults.ofList
              (runPairs (fun v2 p2 vs => analyze cfg custom heap v2 (depth + 1) p2 vs)
                path entries vis).1)) path,
            (runPairs (fun v2 p2 vs => analyze cfg custom heap v2 (depth + 1) p2 vs)
              path entries vis).2)
        else (.mapR entries.length .nonePR path, vis))
    ∧ (∀ (cfg : Config) (custom : CustomTable) (heap : Heap) (a : Nat)
        (elems : List Value) (depth : Nat) (path : List Key) (vis : List Nat),
      heap a = .setO elems → a ∉ vis → List.lookup "Set" custom = none →
      depth ≤ cfg.maxDepth →
      analyze cfg custom heap (.ref a) depth path vis =
        if cfg.maxDepth > depth then
          (.setR elems.length (.someR (ResultList.ofList
              (runVals (fun v2 p2 vs => analyze cfg custom heap v2 (depth + 1) p2 vs)
                path elems vis).1)) path,
            (runVals (fun v2 p2 vs => analyze cfg custom heap v2 (depth + 1) p2 vs)
              path elems vis).2)
        else (.setR elems.length .noneR path, vis)) := by
  constructor
  · intro cfg custom heap a entries depth path vis hh hv hc hd
    rw [analyze_eq cfg custom heap (.ref a) depth path vis hd]
    simp [dispatch, hh, hv, hc]
  · intro cfg custom heap a elems depth path vis hh hv hc hd
    rw [analyze_eq cfg custom heap (.ref a) depth path vis hd]
    simp [dispatch, hh, hv, hc]

/-- Witness for C7: a one-entry Map analyzed at the depth bound (depth 1,
maxDepth 1) reports its size but omits `entries`; the same Map analyzed at
depth 0 attaches them. -/
theorem claim_c7_map_set_depth_gate_witness :
    analyze cfgD1 [] heapMap1 (.ref 0) 1 [] [] = (.mapR 1 .nonePR [], [])
    ∧ analyze cfgD1 [] heapMap1 (.ref 0) 0 [] [] =
        (.mapR 1 (.somePR (.cons (.primitive "number" (.num 1) [])
          (.primitive "number" (.num 2) []) .nil)) [], []) := by
  constructor
  · rw [claim_c7_map_set_depth_gate.1 cfgD1 [] heapMap1 0 [(.num 1, .num 2)] 1 [] []
      rfl (by decide) rfl (by decide)]
    decide
  · rw [claim_c7_map_set_depth_gate.1 cfgD1 [] heapMap1 0 [(.num 1, .num 2)] 0 [] []
      rfl (by decide) rfl (by decide)]
    decide

/-- C6: dispatch order.  Non-object `typeof` kinds (string, number, boolean,
bigint, symbol, function) and arrays are resolved before the named-composite
table is consulted — their results are the same for every custom table, so a
registered handler can never override them — while for a generic object the
named-composite table is consulted before the generic object handler: a
registered handler for the class name receives the value and its output is
returned exactly, and only when the lookup fails (and the name collides with
no built-in entry) does the generic object handler run. -/
theorem claim_c6_dispatch_order :
    (∀ (custom : CustomTable) (cfg : Config) (heap : Heap) (s : String)
        (depth : Nat) (path : List Key) (vis : List Nat), depth ≤ cfg.maxDepth →
      analyze cfg custom heap (.str s) depth path vis =
        (.primitive "string" (.str s) path, vis))
    ∧ (∀ (custom : CustomTable) (cfg : Config) (heap : Heap) (n : Int)
        (depth : Nat) (path : List Key) (vis : List Nat), depth ≤ cfg.maxDepth →
      analyze cfg custom heap (.num n) depth path vis =
        (.primitive "number" (.num n) path, vis))
    ∧ (∀ (custom : CustomTable) (cfg : Config) (heap : Heap) (b : Bool)
        (depth : Nat) (path : List Key) (vis : List Nat), depth ≤ cfg.maxDepth →
      analyze cfg custom heap (.boolV b) depth path vis =
        (.primitive "boolean" (.boolV b) path, vis))
    ∧ (∀ (custom : CustomTable) (cfg : Config) (heap : Heap) (n : Int)
        (depth : Nat) (path : List Key) (vis : List Nat), depth ≤ cfg.maxDepth →
      analyze cfg custom heap (.bigintV n) depth path vis =
        (.primitive "bigint" (.bigintV n) path, vis))
    ∧ (∀ (custom : CustomTable) (cfg : Config) (heap : Heap) (d : Option String)
        (depth : Nat) (path : List Key) (vis : List Nat), depth ≤ cfg.maxDepth →
      analyze cfg custom heap (.sym d) depth path vis = (.symbolR d path, vis))
    ∧ (∀ (custom : CustomTable) (cfg : Config) (heap : Heap)
        (name ctorName : String) (params : List String)
        (depth : Nat) (path : List Key) (vis : List Nat), depth ≤ cfg.maxDepth →
      analyze cfg custom heap (.fn name ctorName params) depth path vis =
        (.functionR (if name = "" then "(anonymous)" else name)
          (ctorName = "AsyncFunction") (ctorName = "GeneratorFunction")
          (if cfg.includeMethods then some (params.length, params) else none) path, vis))
    ∧ (∀ (custom : CustomTable) (cfg : Config) (heap : Heap) (a : Nat)
        (elems : List Value) (depth : Nat) (path : List Key) (vis : List Nat),
      heap a = .arr elems → depth ≤ cfg.maxDepth →
      analyze cfg custom heap (.ref a) depth path vis =
        (.arrayR elems.length (GroupList.ofList (groupElems elems.length
            (runElems (fun v2 p2 vs => analyze cfg custom heap v2 (depth + 1) p2 vs)
              path elems.enum (visitedAdd a vis)).1)) path,
          (runElems (fun v2 p2 vs => analyze cfg custom heap v2 (depth + 1) p2 vs)
            path elems.enum (visitedAdd a vis)).2))
    ∧ (∀ (custom : CustomTable) (cfg : Config) (heap : Heap) (a : Nat) (c : String)
        (props : List PropEntry) (sprops : List SymEntry)
        (pc : Option (Option String)) (pm : List String) (hnd : CHandler)
        (r : AnalysisResult) (depth : Nat) (path : List Key) (vis : List Nat),
      heap a = .obj (some c) props sprops pc pm → c ≠ "" →
      List.lookup c custom = some hnd → hnd (.ref a) depth path = .ok r →
      a ∉ vis → depth ≤ cfg.maxDepth →
      analyze cfg custom heap (.ref a) depth path vis = (r, vis))
    ∧ (∀ (custom : CustomTable) (cfg : Config) (heap : Heap) (a : Nat) (c : String)
        (props : List PropEntry) (sprops : List SymEntry)
        (pc : Option (Option String)) (pm : List String)
        (depth : Nat) (path : List Key) (vis : List Nat),
      heap a = .obj (some c) props sprops pc pm → c ≠ "" →
      List.lookup c custom = none → c ∉ builtinNames →
      a ∉ vis → depth ≤ cfg.maxDepth →
      (analyze cfg custom heap (.ref a) depth path vis).1 =
        .objectR c (PropResults.ofList
            (runProps (fun v2 p2 vs => analyze cfg custom heap v2 (depth + 1) p2 vs)
              cfg path (selectProps cfg props) (visitedAdd a vis)).1)
          (if 0 < (runSymProps (fun v2 p2 vs => analyze cfg custom heap v2 (depth + 1) p2 vs)
                path sprops
                (runProps (fun v2 p2 vs => analyze cfg custom heap v2 (depth + 1) p2 vs)
                  cfg path (selectProps cfg props) (visitedAdd a vis)).2).1.length then
            .someP (PropResults.ofList
              (runSymProps (fun v2 p2 vs => analyze cfg custom heap v2 (depth + 1) p2 vs)
                path sprops
                (runProps (fun v2 p2 vs => analyze cfg custom heap v2 (depth + 1) p2 vs)
                  cfg path (selectProps cfg props) (visitedAdd a vis)).2).1)
          else .noneP)
          (if cfg.includePrototype then
            match pc with
            | some pcn => some (pcn, if cfg.includeMethods then some pm else none)
            | none => none
          else none)
          path) := by
  refine ⟨?_, ?_, ?_, ?_, ?_, ?_, ?_, ?_, ?_⟩
  · intro custom cfg heap s depth path vis hd
    rw [analyze_eq cfg custom heap (.str s) depth path vis hd]
    rfl
  · intro custom cfg heap n depth path vis hd
    rw [analyze_eq cfg custom heap (.num n) depth path vis hd]
    rfl
  · intro custom cfg heap b depth path vis hd
    rw [analyze_eq cfg custom heap (.boolV b) depth path vis hd]
    rfl
  · intro custom cfg heap n depth path vis hd
    rw [analyze_eq cfg custom heap (.bigintV n) depth path vis hd]
    rfl
  · intro custom cfg heap d depth path vis hd
    rw [analyze_eq cfg custom heap (.sym d) depth path vis hd]
    rfl
  · intro custom cfg heap name ctorName params depth path vis hd
    rw [analyze_eq cfg custom heap (.fn name ctorName params) depth path vis hd]
    simp [dispatch]
  · intro custom cfg heap a elems depth path vis hh hd
    rw [analyze_eq cfg custom heap (.ref a) depth path vis hd]
    simp [dispatch, hh]
  · intro custom cfg heap a c props sprops pc pm hnd r depth path vis hh hc hl hr hv hd
    rw [analyze_eq cfg custom heap (.ref a) depth path vis hd]
    simp [dispatch, hh, hv, lookupCustom, hc, hl, runCustom, hr]
  · intro custom cfg heap a c props sprops pc pm depth path vis hh hc hl hb hv hd
    rw [analyze_eq cfg custom heap (.ref a) depth path vis hd]
    simp [dispatch, hh, hv, lookupCustom, hc, hl, strTruthy, jsOr, hb]

/-- Witness for C6: a handler registered for class `Point` overrides generic
object handling (`analyze` returns exactly the handler's output), while the
same registration cannot affect a string or an array. -/
theorem claim_c6_dispatch_order_witness :
    analyze cfgStd [("Point", pointHandler)] heapPoint (.ref 0) 0 [] [] =
      (.primitive "point" (.num 99) [], [])
    ∧ analyze cfgStd [("Point", pointHandler)] heapPoint (.str "hi") 0 [] [] =
      (.primitive "string" (.str "hi") [], [])
    ∧ analyze cfgStd [("Point", pointHandler)] heapTwoShapes (.ref 0) 2 [] [] =
      analyze cfgStd [] heapTwoShapes (.ref 0) 2 [] [] := by
  refine ⟨?_, ?_, ?_⟩
  · exact claim_c6_dispatch_order.2.2.2.2.2.2.2.1 [("Point", pointHandler)] cfgStd
      heapPoint 0 "Point" [dataProp "x" (.num 3)] [] (some (some "Point")) []
      pointHandler (.primitive "point" (.num 99) []) 0 [] [] rfl (by decide) rfl
      rfl (by decide) (by decide)
  · exact claim_c6_dispatch_order.1 [("Point", pointHandler)] cfgStd heapPoint "hi"
      0 [] [] (by decide)
  · rw [claim_c6_dispatch_order.2.2.2.2.2.2.1 [("Point", pointHandler)] cfgStd
      heapTwoShapes 0 [.num 1, .str "x", .num 1] 2 [] [] rfl (by decide)]
    decide

/-- C4: exceptions are caught and converted.  A throwing custom handler is
caught at the dispatching call's scope and becomes an `error` result carrying
that node's path; a throwing property read inside `handleObject` is caught at
that property's scope, becomes an `error` result at the property's path, and
the analysis of the sibling property continues unaffected.  (`analyze` itself
is a total function of its inputs: every failure path ends in an `error`
variant rather than an exception.) -/
theorem claim_c4_exceptions_to_error :
    (∀ (cfg : Config) (custom : CustomTable) (heap : Heap) (a : Nat) (c : String)
        (props : List PropEntry) (sprops : List SymEntry)
        (pc : Option (Option String)) (pm : List String) (hnd : CHandler)
        (msg : String) (depth : Nat) (path : List Key) (vis : List Nat),
      heap a = .obj (some c) props sprops pc pm → c ≠ "" →
      List.lookup c custom = some hnd → hnd (.ref a) depth path = .error msg →
      a ∉ vis → depth ≤ cfg.maxDepth →
      analyze cfg custom heap (.ref a) depth path vis = (.errorR msg path, vis))
    ∧ (∀ (cfg : Config) (custom : CustomTable) (heap : Heap) (a : Nat)
        (k1 k2 msg : String) (v2 : Value) (depth : Nat) (path : List Key) (vis : List Nat),
      heap a = .obj none [throwProp k1 msg, dataProp k2 v2] [] none [] →
      startsWithHash k1 = false → startsWithHash k2 = false →
      a ∉ vis → depth ≤ cfg.maxDepth →
      (analyze cfg custom heap (.ref a) depth path vis).1 =
        .objectR "Object" (.ofList
          [(k1, .errorR msg (path ++ [.str k1])),
           (k2, (analyze cfg custom heap v2 (depth + 1) (path ++ [.str k2])
              (visitedAdd a vis)).1)])
          .noneP none path) := by
  constructor
  · intro cfg custom heap a c props sprops pc pm hnd msg depth path vis hh hc hl hr hv hd
    rw [analyze_eq cfg custom heap (.ref a) depth path vis hd]
    simp [dispatch, hh, hv, lookupCustom, hc, hl, runCustom, hr]
  · intro cfg custom heap a k1 k2 msg v2 depth path vis hh h1 h2 hv hd
    rw [analyze_eq cfg custom heap (.ref a) depth path vis hd]
    have hsel : selectProps cfg
        [⟨k1, true, false, false, .error msg⟩, ⟨k2, true, false, false, .ok v2⟩] =
        [⟨k1, true, false, false, .error msg⟩, ⟨k2, true, false, false, .ok v2⟩] := by
      by_cases hp : cfg.includePrivateProps <;> simp [selectProps, hp, h1, h2]
    simp [dispatch, hh, hv, lookupCustom, strTruthy, jsOr, throwProp, dataProp,
      hsel, runProps, runSymProps, PropResults.ofList]

/-- Witness for C4: a registered handler that throws is converted to an
`error` result at the node's path; a two-property object whose first property
read throws yields an `error` at that property's path while the sibling is
analyzed normally. -/
theorem claim_c4_exceptions_to_error_witness :
    analyze cfgStd [("Point", boomHandler)] heapPoint (.ref 0) 0 [] [] =
      (.errorR "boom" [], [])
    ∧ (analyze cfgStd []
        (fun _ => .obj none [throwProp "bad" "kaput", dataProp "good" (.num 5)] [] none [])
        (.ref 0) 0 [] []).1 =
      .objectR "Object" (.cons "bad" (.errorR "kaput" [.str "bad"])
        (.cons "good" (.primitive "number" (.num 5) [.str "good"]) .nil))
        .noneP none [] := by
  constructor
  · exact claim_c4_exceptions_to_error.1 cfgStd [("Point", boomHandler)] heapPoint 0
      "Point" [dataProp "x" (.num 3)] [] (some (some "Point")) [] boomHandler "boom"
      0 [] [] rfl (by decide) rfl rfl (by decide) (by decide)
  · rw [claim_c4_exceptions_to_error.2 cfgStd []
      (fun _ => .obj none [throwProp "bad" "kaput", dataProp "good" (.num 5)] [] none [])
      0 "bad" "good" "kaput" (.num 5) 0 [] [] rfl (by decide) (by decide) (by decide)
      (by decide)]
    decide

/-- Counterexample to C3 as stated: a self-referential array
(`const a = []; a.push(a)`, analyzed with `maxDepth = 1`).  The array is in
the visited set when it is re-encountered at path `[0]`, yet the result there
is an `array` result again — not `circular-reference` — because the
`Array.isArray` dispatch precedes the visited-set check; the traversal is
stopped by the depth guard instead. -/
theorem claim_c3_counterexample :
    analyzeTop cfgD1 [] heapSelfArr (.ref 0) =
      .arrayR 1 (.cons (.arrayR 1 (.cons (.maxDepthReached [.idx 0, .idx 0]) 1 1 [0] .nil)
        [.idx 0]) 1 1 [0] .nil) []
    ∧ ∀ p : List Key,
      (.arrayR 1 (.cons (.maxDepthReached [.idx 0, .idx 0]) 1 1 [0] .nil) [.idx 0]
        : AnalysisResult) ≠ .circularReference p :=
  ⟨by decide, fun p h => AnalysisResult.noConfusion h⟩

/-- C3 (amended): re-encountering a reference already in the visited set
yields `circular-reference` at the re-encountered path for every non-array
composite — the check precedes the named-composite (custom) handler lookup,
so even custom-typed circular references surface as `circular-reference` —
while a re-encountered array is dispatched to the array handler again (the
`Array.isArray` test precedes the visited check) and is terminated by the
depth guard; analysis of the rest of the structure still completes, as on the
self-referential object `{self: o}`. -/
theorem claim_c3_amended_circular_non_array :
    (∀ (cfg : Config) (custom : CustomTable) (heap : Heap) (a : Nat)
        (depth : Nat) (path : List Key) (vis : List Nat),
      (heap a).isArr = false → a ∈ vis → depth ≤ cfg.maxDepth →
      analyze cfg custom heap (.ref a) depth path vis = (.circularReference path, vis))
    ∧ analyzeTop cfgStd [] heapSelfObj (.ref 0) =
        .objectR "Object" (.cons "self" (.circularReference [.str "self"]) .nil)
          .noneP none [] := by
  constructor
  · intro cfg custom heap a depth path vis hA hv hd
    rw [analyze_eq cfg custom heap (.ref a) depth path vis hd]
    cases hh : heap a
    case arr elems => rw [hh] at hA; simp [HeapObj.isArr] at hA
    all_goals simp [dispatch, hh, hv]
  · decide

/-- Witness for C3 (amended): a Date already in the visited set surfaces as
`circular-reference` at its path even though a custom handler is registered
for class `Date`. -/
theorem claim_c3_amended_circular_non_array_witness :
    analyze cfgStd [("Date", pointHandler)] (fun _ => .date "1970-01-01T00:00:00.000Z" 0)
      (.ref 3) 2 [.str "k"] [3, 7] = (.circularReference [.str "k"], [3, 7]) :=
  claim_c3_amended_circular_non_array.1 cfgStd [("Date", pointHandler)]
    (fun _ => .date "1970-01-01T00:00:00.000Z" 0) 3 2 [.str "k"] [3, 7]
    rfl (by decide) (by decide)

/-- C10: every recursive descent — into an object property, a symbol
property, or an array element — receives a context whose depth is the
caller's depth plus one and whose path is the caller's path with exactly that
member's key appended; sibling descents each start again from the caller's
own path and depth (contexts are threaded by value, only the visited set
flows left to right). -/
theorem claim_c10_fresh_child_contexts :
    (∀ (cfg : Config) (custom : CustomTable) (heap : Heap) (a : Nat)
        (k1 k2 : String) (v1 v2 : Value) (depth : Nat) (path : List Key) (vis : List Nat),
      heap a = .obj none [dataProp k1 v1, dataProp k2 v2] [] none [] →
      startsWithHash k1 = false → startsWithHash k2 = false →
      a ∉ vis → depth ≤ cfg.maxDepth →
      (analyze cfg custom heap (.ref a) depth path vis).1 =
        .objectR "Object" (.ofList
          [(k1, (analyze cfg custom heap v1 (depth + 1) (path ++ [.str k1])
              (visitedAdd a vis)).1),
           (k2, (analyze cfg custom heap v2 (depth + 1) (path ++ [.str k2])
              (analyze cfg custom heap v1 (depth + 1) (path ++ [.str k1])
                (visitedAdd a vis)).2).1)])
          .noneP none path)
    ∧ (∀ (cfg : Config) (custom : CustomTable) (heap : Heap) (a : Nat)
        (s d : String) (rd : Value) (depth : Nat) (path : List Key) (vis : List Nat),
      heap a = .obj none [] [⟨s, some d, .ok rd⟩] none [] → d ≠ "" →
      a ∉ vis → depth ≤ cfg.maxDepth →
      (analyze cfg custom heap (.ref a) depth path vis).1 =
        .objectR "Object" .nil
          (.someP (.cons s (analyze cfg custom heap rd (depth + 1) (path ++ [.str d])
            (visitedAdd a vis)).1 .nil))
          none path)
    ∧ (∀ (cfg : Config) (custom : CustomTable) (heap : Heap) (a : Nat)
        (v1 v2 : Value) (depth : Nat) (path : List Key) (vis : List Nat),
      heap a = .arr [v1, v2] → depth ≤ cfg.maxDepth →
      analyze cfg custom heap (.ref a) depth path vis =
        ((.arrayR 2 (GroupList.ofList (groupElems 2
            [(analyze cfg custom heap v1 (depth + 1) (path ++ [.idx 0])
                (visitedAdd a vis)).1,
             (analyze cfg custom heap v2 (depth + 1) (path ++ [.idx 1])
                (analyze cfg custom heap v1 (depth + 1) (path ++ [.idx 0])
                  (visitedAdd a vis)).2).1])) path),
          (analyze cfg custom heap v2 (depth + 1) (path ++ [.idx 1])
            (analyze cfg custom heap v1 (depth + 1) (path ++ [.idx 0])
              (visitedAdd a vis)).2).2)) := by
  refine ⟨?_, ?_, ?_⟩
  · intro cfg custom heap a k1 k2 v1 v2 depth path vis hh h1 h2 hv hd
    rw [analyze_eq cfg custom heap (.ref a) depth path vis hd]
    have hsel : selectProps cfg
        [⟨k1, true, false, false, .ok v1⟩, ⟨k2, true, false, false, .ok v2⟩] =
        [⟨k1, true, false, false, .ok v1⟩, ⟨k2, true, false, false, .ok v2⟩] := by
      by_cases hp : cfg.includePrivateProps <;> simp [selectProps, hp, h1, h2]
    simp [dispatch, hh, hv, lookupCustom, strTruthy, jsOr, dataProp, hsel,
      runProps, runSymProps, PropResults.ofList]
  · intro cfg custom heap a s d rd depth path vis hh hd0 hv hd
    rw [analyze_eq cfg custom heap (.ref a) depth path vis hd]
    simp [dispatch, hh, hv, lookupCustom, strTruthy, jsOr, selectProps,
      runProps, runSymProps, symKey, hd0, PropResults.ofList]
  · intro cfg custom heap a v1 v2 depth path vis hh hd
    rw [analyze_eq cfg custom heap (.ref a) depth path vis hd]
    simp [dispatch, hh, runElems, List.enum, List.enumFrom]

/-- Witness for C10: the three descents applied at a concrete two-property
object, a symbol property, and a two-element array. -/
theorem claim_c10_fresh_child_contexts_witness :
    (analyze cfgStd [] (fun _ => .obj none [dataProp "p" (.num 1), dataProp "q" (.num 2)] [] none [])
        (.ref 0) 0 [] []).1 =
      .objectR "Object" (.ofList
        [("p", (analyze cfgStd [] (fun _ => .obj none [dataProp "p" (.num 1), dataProp "q" (.num 2)] [] none [])
            (.num 1) 1 [.str "p"] (visitedAdd 0 [])).1),
         ("q", (analyze cfgStd [] (fun _ => .obj none [dataProp "p" (.num 1), dataProp "q" (.num 2)] [] none [])
            (.num 2) 1 [.str "q"]
            (analyze cfgStd [] (fun _ => .obj none [dataProp "p" (.num 1), dataProp "q" (.num 2)] [] none [])
              (.num 1) 1 [.str "p"] (visitedAdd 0 [])).2).1)])
        .noneP none [] :=
  claim_c10_fresh_child_contexts.1 cfgStd []
    (fun _ => .obj none [dataProp "p" (.num 1), dataProp "q" (.num 2)] [] none [])
    0 "p" "q" (.num 1) (.num 2) 0 [] [] rfl (by decide) (by decide) (by decide) (by decide)


theorem visitedAdd_mem (a x : Nat) (vis : List Nat) (hx : x ∈ vis) :
    x ∈ visitedAdd a vis := by
  simp only [visitedAdd]
  split
  · exact hx
  · exact List.mem_cons_of_mem a hx

theorem visitedAdd_mem_self (a : Nat) (vis : List Nat) : a ∈ visitedAdd a vis := by
  simp only [visitedAdd]
  split
  · assumption
  · exact List.mem_cons_self a vis

theorem runProps_vis_mono (f : Value → List Key → List Nat → AnalysisResult × List Nat)
    (cfg : Config) (bp : List Key)
    (hf : ∀ v p vs x, x ∈ vs → x ∈ (f v p vs).2) :
    ∀ (props : List PropEntry) (vis : List Nat) (x : Nat),
      x ∈ vis → x ∈ (runProps f cfg bp props vis).2 := by
  intro props
  induction props with
  | nil => intro vis x hx; simpa [runProps] using hx
  | cons p rest ih =>
    intro vis x hx
    simp only [runProps]
    split
    · exact ih vis x hx
    · split
      · exact ih _ x (hf _ _ _ x hx)
      · exact ih vis x hx

theorem runSymProps_vis_mono (f : Value → List Key → List Nat → AnalysisResult × List Nat)
    (bp : List Key)
    (hf : ∀ v p vs x, x ∈ vs → x ∈ (f v p vs).2) :
    ∀ (sprops : List SymEntry) (vis : List Nat) (x : Nat),
      x ∈ vis → x ∈ (runSymProps f bp sprops vis).2 := by
  intro sprops
  induction sprops with
  | nil => intro vis x hx; simpa [runSymProps] using hx
  | cons p rest ih =>
    intro vis x hx
    simp only [runSymProps]
    split
    · exact ih _ x (hf _ _ _ x hx)
    · exact ih vis x hx

theorem runElems_vis_mono (f : Value → List Key → List Nat → AnalysisResult × List Nat)
    (bp : List Key)
    (hf : ∀ v p vs x, x ∈ vs → x ∈ (f v p vs).2) :
    ∀ (l : List (Nat × Value)) (vis : List Nat) (x : Nat),
      x ∈ vis → x ∈ (runElems f bp l vis).2 := by
  intro l
  induction l with
  | nil => intro vis x hx; simpa [runElems] using hx
  | cons p rest ih =>
    intro vis x hx
    obtain ⟨i, v⟩ := p
    simp only [runElems]
    exact ih _ x (hf _ _ _ x hx)

theorem runPairs_vis_mono (f : Value → List Key → List Nat → AnalysisResult × List Nat)
    (bp : List Key)
    (hf : ∀ v p vs x, x ∈ vs → x ∈ (f v p vs).2) :
    ∀ (l : List (Value × Value)) (vis : List Nat) (x : Nat),
      x ∈ vis → x ∈ (runPairs f bp l vis).2 := by
  intro l
  induction l with
  | nil => intro vis x hx; simpa [runPairs] using hx
  | cons p rest ih =>
    intro vis x hx
    obtain ⟨k, v⟩ := p
    simp only [runPairs]
    exact ih _ x (hf _ _ _ x (hf _ _ _ x hx))

theorem runVals_vis_mono (f : Value → List Key → List Nat → AnalysisResult × List Nat)
    (bp : List Key)
    (hf : ∀ v p vs x, x ∈ vs → x ∈ (f v p vs).2) :
    ∀ (l : List Value) (vis : List Nat) (x : Nat),
      x ∈ vis → x ∈ (runVals f bp l vis).2 := by
  intro l
  induction l with
  | nil => intro vis x hx; simpa [runVals] using hx
  | cons v rest ih =>
    intro vis x hx
    simp only [runVals]
    exact ih _ x (hf _ _ _ x hx)

theorem dispatch_vis_mono (cfg : Config) (custom : CustomTable) (heap : Heap)
    (child : Value → List Key → List Nat → AnalysisResult × List Nat)
    (hc : ∀ v p vs x, x ∈ vs → x ∈ (child v p vs).2) :
    ∀ (v : Value) (depth : Nat) (path : List Key) (vis : List Nat) (x : Nat),
      x ∈ vis → x ∈ (dispatch cfg custom heap child v depth path vis).2 := by
  intro v depth path vis x hx
  cases v
  case ref a =>
    cases hh : heap a
    all_goals simp only [dispatch, hh]
    case arr elems =>
      exact runElems_vis_mono child path hc _ _ x (visitedAdd_mem a x vis hx)
    case obj c props sprops pc pm =>
      split
      · exact hx
      · split
        · simp only [runCustom]; split <;> exact hx
        · split
          · exact hx
          · exact runSymProps_vis_mono child path hc _ _ x
              (runProps_vis_mono child cfg path hc _ _ x (visitedAdd_mem a x vis hx))
    case mapO entries =>
      split
      · exact hx
      · split
        · simp only [runCustom]; split <;> exact hx
        · split
          · exact runPairs_vis_mono child path hc _ _ x hx
          · exact hx
    case setO elems =>
      split
      · exact hx
      · split
        · simp only [runCustom]; split <;> exact hx
        · split
          · exact runVals_vis_mono child path hc _ _ x hx
          · exact hx
    all_goals split
    all_goals try exact hx
    all_goals split
    all_goals try exact hx
    all_goals simp only [runCustom]
    all_goals split <;> exact hx
  all_goals simpa [dispatch] using hx

theorem analyzeF_vis_mono (cfg : Config) (custom : CustomTable) (heap : Heap) :
    ∀ (fuel : Nat) (v : Value) (depth : Nat) (path : List Key) (vis : List Nat) (x : Nat),
      x ∈ vis → x ∈ (analyzeF cfg custom heap fuel v depth path vis).2 := by
  intro fuel
  induction fuel with
  | zero =>
    intro v depth path vis x hx
    simp only [analyzeF]
    split
    · exact hx
    · exact hx
  | succ fuel ih =>
    intro v depth path vis x hx
    simp only [analyzeF]
    split
    · exact hx
    · exact dispatch_vis_mono cfg custom heap _
        (fun v2 p2 vs y hy => ih v2 (depth + 1) p2 vs y hy) v depth path vis x hx

theorem analyze_vis_mono (cfg : Config) (custom : CustomTable) (heap : Heap)
    (v : Value) (depth : Nat) (path : List Key) (vis : List Nat) (x : Nat)
    (hx : x ∈ vis) : x ∈ (analyze cfg custom heap v depth path vis).2 :=
  analyzeF_vis_mono cfg custom heap _ v depth path vis x hx

theorem visitedAdd_mem_iff (a x : Nat) (vis : List Nat) :
    x ∈ visitedAdd a vis ↔ x = a ∨ x ∈ vis := by
  simp only [visitedAdd]
  split
  · constructor
    · exact fun h => Or.inr h
    · rintro (rfl | h)
      · assumption
      · exact h
  · exact List.mem_cons

/-- Counterexample to C8 as stated: one array shared by two sibling
properties (`const shared = [7]; {x: shared, y: shared}`).  The array is in
the visited set when property `y` re-encounters it, yet `y`'s result is a
full `array` analysis again — not `circular-reference` — because the
`Array.isArray` dispatch precedes the visited-set check. -/
theorem claim_c8_counterexample :
    analyzeTop cfgStd [] heapShared (.ref 0) =
      .objectR "Object"
        (.cons "x" (.arrayR 1 (.cons (.primitive "number" (.num 7) [.str "x", .idx 0]) 1 1 [0] .nil) [.str "x"])
        (.cons "y" (.arrayR 1 (.cons (.primitive "number" (.num 7) [.str "y", .idx 0]) 1 1 [0] .nil) [.str "y"])
        .nil)) .noneP none []
    ∧ ∀ p : List Key,
      (.arrayR 1 (.cons (.primitive "number" (.num 7) [.str "y", .idx 0]) 1 1 [0] .nil)
        [.str "y"] : AnalysisResult) ≠ .circularReference p :=
  ⟨by decide, fun p h => AnalysisResult.noConfusion h⟩

/-- C8 (amended): when the same non-array object is reachable via two
independent sibling branches (not a true cycle), the first encounter is
analyzed fully and the later encounter is reported as `circular-reference`,
because the per-call visited set is only ever added to and never cleared; a
shared array, by contrast, is re-analyzed on each encounter since array
dispatch precedes the visited check (see the counterexample). -/
theorem claim_c8_amended_shared_object_circular
    (cfg : Config) (heap : Heap) (a b : Nat) (k1 k2 : String)
    (props2 : List PropEntry) (depth : Nat) (path : List Key) (vis : List Nat)
    (hh1 : heap a = .obj none [dataProp k1 (.ref b), dataProp k2 (.ref b)] [] none [])
    (hh2 : heap b = .obj none props2 [] none [])
    (hab : a ≠ b) (hav : a ∉ vis) (hbv : b ∉ vis)
    (h1 : startsWithHash k1 = false) (h2 : startsWithHash k2 = false)
    (hd : depth + 1 ≤ cfg.maxDepth) :
    ((analyze cfg [] heap (.ref a) depth path vis).1 =
      .objectR "Object" (.ofList
        [(k1, (analyze cfg [] heap (.ref b) (depth + 1) (path ++ [.str k1]) (visitedAdd a vis)).1),
         (k2, .circularReference (path ++ [.str k2]))]) .noneP none path)
    ∧ ∃ pr, (analyze cfg [] heap (.ref b) (depth + 1) (path ++ [.str k1]) (visitedAdd a vis)).1
        = .objectR "Object" pr .noneP none (path ++ [.str k1]) := by
  have hbva : b ∉ visitedAdd a vis := by
    rw [visitedAdd_mem_iff]
    rintro (rfl | h)
    · exact hab rfl
    · exact hbv h
  have hR1 : analyze cfg [] heap (.ref b) (depth + 1) (path ++ [.str k1]) (visitedAdd a vis) =
      (.objectR "Object" (PropResults.ofList
          (runProps (fun v2 p2 vs => analyze cfg [] heap v2 (depth + 1 + 1) p2 vs)
            cfg (path ++ [.str k1]) (selectProps cfg props2)
            (visitedAdd b (visitedAdd a vis))).1)
        .noneP none (path ++ [.str k1]),
        (runProps (fun v2 p2 vs => analyze cfg [] heap v2 (depth + 1 + 1) p2 vs)
          cfg (path ++ [.str k1]) (selectProps cfg props2)
          (visitedAdd b (visitedAdd a vis))).2) := by
    rw [analyze_eq cfg [] heap (.ref b) (depth + 1) (path ++ [Key.str k1]) (visitedAdd a vis) hd]
    simp [dispatch, hh2, hbva, lookupCustom, strTruthy, jsOr, runSymProps]
  have hbin : b ∈ (analyze cfg [] heap (.ref b) (depth + 1) (path ++ [.str k1]) (visitedAdd a vis)).2 := by
    rw [hR1]
    exact runProps_vis_mono _ cfg (path ++ [.str k1])
      (fun v p vs x hx => analyze_vis_mono cfg [] heap v (depth + 1 + 1) p vs x hx)
      (selectProps cfg props2) (visitedAdd b (visitedAdd a vis)) b
      (visitedAdd_mem_self b (visitedAdd a vis))
  have hcirc : analyze cfg [] heap (.ref b) (depth + 1) (path ++ [.str k2])
      (analyze cfg [] heap (.ref b) (depth + 1) (path ++ [.str k1]) (visitedAdd a vis)).2 =
      (.circularReference (path ++ [.str k2]),
        (analyze cfg [] heap (.ref b) (depth + 1) (path ++ [.str k1]) (visitedAdd a vis)).2) := by
    rw [analyze_eq cfg [] heap (.ref b) (depth + 1) (path ++ [Key.str k2]) _ hd]
    simp [dispatch, hh2, hbin]
  constructor
  · rw [analyze_eq cfg [] heap (.ref a) depth path vis (by omega)]
    have hsel : selectProps cfg
        [⟨k1, true, false, false, .ok (.ref b)⟩, ⟨k2, true, false, false, .ok (.ref b)⟩] =
        [⟨k1, true, false, false, .ok (.ref b)⟩, ⟨k2, true, false, false, .ok (.ref b)⟩] := by
      by_cases hp : cfg.includePrivateProps <;> simp [selectProps, hp, h1, h2]
    simp [dispatch, hh1, hav, lookupCustom, strTruthy, jsOr, dataProp, hsel,
      runProps, runSymProps, PropResults.ofList, hcirc]
  · exact ⟨_, by rw [hR1]⟩

/-- Witness for C8 (amended): the shared empty object `{x: s, y: s}` with
`s = {}` — `x` is analyzed fully as an object, `y` reports
`circular-reference`. -/
theorem claim_c8_amended_shared_object_circular_witness :
    ((analyze cfgStd [] heapSharedObj (.ref 0) 0 [] []).1 =
      .objectR "Object" (.ofList
        [("x", (analyze cfgStd [] heapSharedObj (.ref 1) 1 [.str "x"] (visitedAdd 0 [])).1),
         ("y", .circularReference [.str "y"])]) .noneP none [])
    ∧ ∃ pr, (analyze cfgStd [] heapSharedObj (.ref 1) 1 [.str "x"] (visitedAdd 0 [])).1
        = .objectR "Object" pr .noneP none [.str "x"] :=
  claim_c8_amended_shared_object_circular cfgStd heapSharedObj 0 1 "x" "y" [] 0 [] []
    rfl rfl (by decide) (by decide) (by decide) (by decide) (by decide) (by decide)


theorem runProps_vis_pres (f : Value → List Key → List Nat → AnalysisResult × List Nat)
    (cfg : Config) (bp : List Key) (hf : ∀ v p vs, (f v p vs).2 = vs) :
    ∀ (props : List PropEntry) (vis : List Nat), (runProps f cfg bp props vis).2 = vis := by
  intro props
  induction props with
  | nil => intro vis; simp [runProps]
  | cons p rest ih =>
    intro vis
    simp only [runProps]
    split
    · exact ih vis
    · split
      · rw [ih, hf]
      · exact ih vis

theorem runSymProps_vis_pres (f : Value → List Key → List Nat → AnalysisResult × List Nat)
    (bp : List Key) (hf : ∀ v p vs, (f v p vs).2 = vs) :
    ∀ (sprops : List SymEntry) (vis : List Nat), (runSymProps f bp sprops vis).2 = vis := by
  intro sprops
  induction sprops with
  | nil => intro vis; simp [runSymProps]
  | cons p rest ih =>
    intro vis
    simp only [runSymProps]
    split
    · rw [ih, hf]
    · exact ih vis

theorem runElems_vis_pres (f : Value → List Key → List Nat → AnalysisResult × List Nat)
    (bp : List Key) (hf : ∀ v p vs, (f v p vs).2 = vs) :
    ∀ (l : List (Nat × Value)) (vis : List Nat), (runElems f bp l vis).2 = vis := by
  intro l
  induction l with
  | nil => intro vis; simp [runElems]
  | cons p rest ih =>
    intro vis
    obtain ⟨i, v⟩ := p
    simp only [runElems]
    rw [ih, hf]

theorem runPairs_vis_pres (f : Value → List Key → List Nat → AnalysisResult × List Nat)
    (bp : List Key) (hf : ∀ v p vs, (f v p vs).2 = vs) :
    ∀ (l : List (Value × Value)) (vis : List Nat), (runPairs f bp l vis).2 = vis := by
  intro l
  induction l with
  | nil => intro vis; simp [runPairs]
  | cons p rest ih =>
    intro vis
    obtain ⟨k, v⟩ := p
    simp only [runPairs]
    rw [ih, hf, hf]

theorem runVals_vis_pres (f : Value → List Key → List Nat → AnalysisResult × List Nat)
    (bp : List Key) (hf : ∀ v p vs, (f v p vs).2 = vs) :
    ∀ (l : List Value) (vis : List Nat), (runVals f bp l vis).2 = vis := by
  intro l
  induction l with
  | nil => intro vis; simp [runVals]
  | cons v rest ih =>
    intro vis
    simp only [runVals]
    rw [ih, hf]

theorem dispatch_vis_pres (cfg : Config) (custom : CustomTable) (heap : Heap)
    (child : Value → List Key → List Nat → AnalysisResult × List Nat)
    (hOA : noObjArr heap) (hc : ∀ v p vs, (child v p vs).2 = vs) :
    ∀ (v : Value) (depth : Nat) (path : List Key) (vis : List Nat),
      (dispatch cfg custom heap child v depth path vis).2 = vis := by
  intro v depth path vis
  cases v
  case ref a =>
    cases hh : heap a
    case obj c props sprops pc pm =>
      have := hOA a
      rw [hh] at this
      simp [HeapObj.isObjArr] at this
    case arr elems =>
      have := hOA a
      rw [hh] at this
      simp [HeapObj.isObjArr] at this
    case mapO entries =>
      simp only [dispatch, hh]
      split
      · rfl
      · split
        · simp only [runCustom]; split <;> rfl
        · split
          · exact runPairs_vis_pres child path hc entries vis
          · rfl
    case setO elems =>
      simp only [dispatch, hh]
      split
      · rfl
      · split
        · simp only [runCustom]; split <;> rfl
        · split
          · exact runVals_vis_pres child path hc elems vis
          · rfl
    all_goals simp only [dispatch, hh]
    all_goals split
    all_goals try rfl
    all_goals split
    all_goals try rfl
    all_goals simp only [runCustom]
    all_goals split <;> rfl
  all_goals rfl

theorem analyzeF_vis_pres (cfg : Config) (custom : CustomTable) (heap : Heap)
    (hOA : noObjArr heap) :
    ∀ (fuel : Nat) (v : Value) (depth : Nat) (path : List Key) (vis : List Nat),
      (analyzeF cfg custom heap fuel v depth path vis).2 = vis := by
  intro fuel
  induction fuel with
  | zero =>
    intro v depth path vis
    simp only [analyzeF]
    split
    · rfl
    · rfl
  | succ fuel ih =>
    intro v depth path vis
    simp only [analyzeF]
    split
    · rfl
    · exact dispatch_vis_pres cfg custom heap _ hOA
        (fun v2 p2 vs => ih v2 (depth + 1) p2 vs) v depth path vis



theorem runProps_vis_adds (f : Value → List Key → List Nat → AnalysisResult × List Nat)
    (cfg : Config) (bp : List Key) (P : Nat → Prop)
    (hf : ∀ v p vs x, x ∈ (f v p vs).2 → x ∈ vs ∨ P x) :
    ∀ (props : List PropEntry) (vis : List Nat) (x : Nat),
      x ∈ (runProps f cfg bp props vis).2 → x ∈ vis ∨ P x := by
  intro props
  induction props with
  | nil => intro vis x hx; simp only [runProps] at hx; exact Or.inl hx
  | cons p rest ih =>
    intro vis x hx
    simp only [runProps] at hx
    split at hx
    · exact ih vis x hx
    · split at hx
      · rcases ih _ x hx with h | h
        · exact hf _ _ _ x h
        · exact Or.inr h
      · exact ih vis x hx

theorem runSymProps_vis_adds (f : Value → List Key → List Nat → AnalysisResult × List Nat)
    (bp : List Key) (P : Nat → Prop)
    (hf : ∀ v p vs x, x ∈ (f v p vs).2 → x ∈ vs ∨ P x) :
    ∀ (sprops : List SymEntry) (vis : List Nat) (x : Nat),
      x ∈ (runSymProps f bp sprops vis).2 → x ∈ vis ∨ P x := by
  intro sprops
  induction sprops with
  | nil => intro vis x hx; simp only [runSymProps] at hx; exact Or.inl hx
  | cons p rest ih =>
    intro vis x hx
    simp only [runSymProps] at hx
    split at hx
    · rcases ih _ x hx with h | h
      · exact hf _ _ _ x h
      · exact Or.inr h
    · exact ih vis x hx

theorem runElems_vis_adds (f : Value → List Key → List Nat → AnalysisResult × List Nat)
    (bp : List Key) (P : Nat → Prop)
    (hf : ∀ v p vs x, x ∈ (f v p vs).2 → x ∈ vs ∨ P x) :
    ∀ (l : List (Nat × Value)) (vis : List Nat) (x : Nat),
      x ∈ (runElems f bp l vis).2 → x ∈ vis ∨ P x := by
  intro l
  induction l with
  | nil => intro vis x hx; simp only [runElems] at hx; exact Or.inl hx
  | cons p rest ih =>
    intro vis x hx
    obtain ⟨i, v⟩ := p
    simp only [runElems] at hx
    rcases ih _ x hx with h | h
    · exact hf _ _ _ x h
    · exact Or.inr h

theorem runPairs_vis_adds (f : Value → List Key → List Nat → AnalysisResult × List Nat)
    (bp : List Key) (P : Nat → Prop)
    (hf : ∀ v p vs x, x ∈ (f v p vs).2 → x ∈ vs ∨ P x) :
    ∀ (l : List (Value × Value)) (vis : List Nat) (x : Nat),
      x ∈ (runPairs f bp l vis).2 → x ∈ vis ∨ P x := by
  intro l
  induction l with
  | nil => intro vis x hx; simp only [runPairs] at hx; exact Or.inl hx
  | cons p rest ih =>
    intro vis x hx
    obtain ⟨k, v⟩ := p
    simp only [runPairs] at hx
    rcases ih _ x hx with h | h
    · rcases hf _ _ _ x h with h2 | h2
      · exact hf _ _ _ x h2
      · exact Or.inr h2
    · exact Or.inr h

theorem runVals_vis_adds (f : Value → List Key → List Nat → AnalysisResult × List Nat)
    (bp : List Key) (P : Nat → Prop)
    (hf : ∀ v p vs x, x ∈ (f v p vs).2 → x ∈ vs ∨ P x) :
    ∀ (l : List Value) (vis : List Nat) (x : Nat),
      x ∈ (runVals f bp l vis).2 → x ∈ vis ∨ P x := by
  intro l
  induction l with
  | nil => intro vis x hx; simp only [runVals] at hx; exact Or.inl hx
  | cons v rest ih =>
    intro vis x hx
    simp only [runVals] at hx
    rcases ih _ x hx with h | h
    · exact hf _ _ _ x h
    · exact Or.inr h

theorem dispatch_vis_adds (cfg : Config) (custom : CustomTable) (heap : Heap)
    (child : Value → List Key → List Nat → AnalysisResult × List Nat)
    (hc : ∀ v p vs x, x ∈ (child v p vs).2 → x ∈ vs ∨ (heap x).isObjArr = true) :
    ∀ (v : Value) (depth : Nat) (path : List Key) (vis : List Nat) (x : Nat),
      x ∈ (dispatch cfg custom heap child v depth path vis).2 →
        x ∈ vis ∨ (heap x).isObjArr = true := by
  intro v depth path vis x
  cases v
  case ref a =>
    cases hh : heap a
    case arr elems =>
      intro hx
      simp only [dispatch, hh] at hx
      rcases runElems_vis_adds child path _ hc _ _ x hx with h | h
      · rcases (visitedAdd_mem_iff a x vis).mp h with rfl | h2
        · exact Or.inr (by rw [hh]; rfl)
        · exact Or.inl h2
      · exact Or.inr h
    case obj c props sprops pc pm =>
      intro hx
      simp only [dispatch, hh] at hx
      split at hx
      · exact Or.inl hx
      · split at hx
        · simp only [runCustom] at hx
          split at hx <;> exact Or.inl hx
        · split at hx
          · exact Or.inl hx
          · rcases runSymProps_vis_adds child path _ hc _ _ x hx with h | h
            · rcases runProps_vis_adds child cfg path _ hc _ _ x h with h2 | h2
              · rcases (visitedAdd_mem_iff a x vis).mp h2 with rfl | h3
                · exact Or.inr (by rw [hh]; rfl)
                · exact Or.inl h3
              · exact Or.inr h2
            · exact Or.inr h
    case mapO entries =>
      intro hx
      simp only [dispatch, hh] at hx
      split at hx
      · exact Or.inl hx
      · split at hx
        · simp only [runCustom] at hx
          split at hx <;> exact Or.inl hx
        · split at hx
          · exact runPairs_vis_adds child path _ hc _ _ x hx
          · exact Or.inl hx
    case setO elems =>
      intro hx
      simp only [dispatch, hh] at hx
      split at hx
      · exact Or.inl hx
      · split at hx
        · simp only [runCustom] at hx
          split at hx <;> exact Or.inl hx
        · split at hx
          · exact runVals_vis_adds child path _ hc _ _ x hx
          · exact Or.inl hx
    all_goals intro hx
    all_goals simp only [dispatch, hh] at hx
    all_goals split at hx
    all_goals try exact Or.inl hx
    all_goals split at hx
    all_goals try exact Or.inl hx
    all_goals simp only [runCustom] at hx
    all_goals split at hx <;> exact Or.inl hx
  all_goals intro hx
  all_goals simp only [dispatch] at hx
  all_goals exact Or.inl hx

theorem analyzeF_vis_adds (cfg : Config) (custom : CustomTable) (heap : Heap) :
    ∀ (fuel : Nat) (v : Value) (depth : Nat) (path : List Key) (vis : List Nat) (x : Nat),
      x ∈ (analyzeF cfg custom heap fuel v depth path vis).2 →
        x ∈ vis ∨ (heap x).isObjArr = true := by
  intro fuel
  induction fuel with
  | zero =>
    intro v depth path vis x hx
    simp only [analyzeF] at hx
    split at hx
    · exact Or.inl hx
    · exact Or.inl hx
  | succ fuel ih =>
    intro v depth path vis x hx
    simp only [analyzeF] at hx
    split at hx
    · exact Or.inl hx
    · exact dispatch_vis_adds cfg custom heap _
        (fun v2 p2 vs y hy => ih v2 (depth + 1) p2 vs y hy) v depth path vis x hx



theorem PairResults_ofList_noCirc (l : List (AnalysisResult × AnalysisResult))
    (h : ∀ pr ∈ l, pr.1.noCirc = true ∧ pr.2.noCirc = true) :
    (PairResults.ofList l).noCirc = true := by
  induction l with
  | nil => rfl
  | cons pr rest ih =>
    obtain ⟨k, v⟩ := pr
    have hk := h (k, v) (List.mem_cons_self _ _)
    simp only [PairResults.ofList, PairResults.noCirc]
    rw [hk.1, hk.2, ih (fun q hq => h q (List.mem_cons_of_mem _ hq))]
    rfl

theorem ResultList_ofList_noCirc (l : List AnalysisResult)
    (h : ∀ r ∈ l, r.noCirc = true) :
    (ResultList.ofList l).noCirc = true := by
  induction l with
  | nil => rfl
  | cons r rest ih =>
    simp only [ResultList.ofList, ResultList.noCirc]
    rw [h r (List.mem_cons_self _ _), ih (fun q hq => h q (List.mem_cons_of_mem _ hq))]
    rfl

theorem runPairs_noCirc (f : Value → List Key → List Nat → AnalysisResult × List Nat)
    (bp : List Key) (hfp : ∀ v p, (f v p []).2 = [])
    (hfn : ∀ v p, ((f v p []).1).noCirc = true) :
    ∀ (l : List (Value × Value)),
      ∀ pr ∈ (runPairs f bp l []).1, pr.1.noCirc = true ∧ pr.2.noCirc = true := by
  intro l
  induction l with
  | nil => simp [runPairs]
  | cons p rest ih =>
    obtain ⟨k, v⟩ := p
    intro pr hpr
    simp only [runPairs, hfp] at hpr
    rcases List.mem_cons.mp hpr with rfl | h
    · exact ⟨hfn k bp, hfn v bp⟩
    · exact ih pr h

theorem runVals_noCirc (f : Value → List Key → List Nat → AnalysisResult × List Nat)
    (bp : List Key) (hfp : ∀ v p, (f v p []).2 = [])
    (hfn : ∀ v p, ((f v p []).1).noCirc = true) :
    ∀ (l : List Value), ∀ r ∈ (runVals f bp l []).1, r.noCirc = true := by
  intro l
  induction l with
  | nil => simp [runVals]
  | cons v rest ih =>
    intro r hr
    simp only [runVals, hfp] at hr
    rcases List.mem_cons.mp hr with rfl | h
    · exact hfn v bp
    · exact ih r h

theorem dispatch_noCirc (cfg : Config) (heap : Heap)
    (child : Value → List Key → List Nat → AnalysisResult × List Nat)
    (hOA : noObjArr heap)
    (hcp : ∀ v p vs, (child v p vs).2 = vs)
    (hcn : ∀ v p, ((child v p []).1).noCirc = true) :
    ∀ (v : Value) (depth : Nat) (path : List Key),
      ((dispatch cfg [] heap child v depth path []).1).noCirc = true := by
  intro v depth path
  cases v
  case ref a =>
    cases hh : heap a
    case obj c props sprops pc pm =>
      have := hOA a
      rw [hh] at this
      simp [HeapObj.isObjArr] at this
    case arr elems =>
      have := hOA a
      rw [hh] at this
      simp [HeapObj.isObjArr] at this
    case mapO entries =>
      simp only [dispatch, hh, List.lookup_nil, List.not_mem_nil, if_false]
      split
      · simp only [AnalysisResult.noCirc, OptPairResults.noCirc]
        exact PairResults_ofList_noCirc _
          (runPairs_noCirc child path (fun v2 p2 => hcp v2 p2 []) hcn entries)
      · rfl
    case setO elems =>
      simp only [dispatch, hh, List.lookup_nil, List.not_mem_nil, if_false]
      split
      · simp only [AnalysisResult.noCirc, OptResultList.noCirc]
        exact ResultList_ofList_noCirc _
          (runVals_noCirc child path (fun v2 p2 => hcp v2 p2 []) hcn elems)
      · rfl
    all_goals simp [dispatch, hh, AnalysisResult.noCirc]
  all_goals simp [dispatch, AnalysisResult.noCirc]

theorem analyzeF_noCirc (cfg : Config) (heap : Heap) (hOA : noObjArr heap) :
    ∀ (fuel : Nat) (v : Value) (depth : Nat) (path : List Key),
      ((analyzeF cfg [] heap fuel v depth path []).1).noCirc = true := by
  intro fuel
  induction fuel with
  | zero =>
    intro v depth path
    simp only [analyzeF]
    split
    · rfl
    · rfl
  | succ fuel ih =>
    intro v depth path
    simp only [analyzeF]
    split
    · rfl
    · exact dispatch_noCirc cfg heap _ hOA
        (fun v2 p2 vs => analyzeF_vis_pres cfg [] heap hOA fuel v2 (depth + 1) p2 vs)
        (fun v2 p2 => ih v2 (depth + 1) p2) v depth path

/-- C9: during any analysis, only values dispatched to the generic object
handler or the array handler are ever added to the visited set (every address
present in the final visited set was either there initially or holds an
object/array heap object); consequently, on a heap whose every value is
handled by a named-composite handler (Date, RegExp, Map, Set, Promise, Error,
typed arrays), nothing is ever added and no node of the result is
`circular-reference` — a cycle passing exclusively through such values (e.g. a
Map containing itself) is descended repeatedly until the depth guard
terminates it. -/
theorem claim_c9_visited_only_obj_arr :
    (∀ (cfg : Config) (custom : CustomTable) (heap : Heap) (v : Value) (depth : Nat)
        (path : List Key) (vis : List Nat) (x : Nat),
      x ∈ (analyze cfg custom heap v depth path vis).2 → x ∈ vis ∨ (heap x).isObjArr = true)
    ∧ (∀ (cfg : Config) (heap : Heap) (v : Value) (depth : Nat) (path : List Key),
      noObjArr heap →
      (analyze cfg [] heap v depth path []).2 = []
      ∧ ((analyze cfg [] heap v depth path []).1).noCirc = true) := by
  constructor
  · intro cfg custom heap v depth path vis x hx
    exact analyzeF_vis_adds cfg custom heap _ v depth path vis x hx
  · intro cfg heap v depth path hOA
    exact ⟨analyzeF_vis_pres cfg [] heap hOA _ v depth path [],
      analyzeF_noCirc cfg heap hOA _ v depth path⟩


/-- Witness for C9: the self-referential object adds its (object) address to
the visited set, and the self-referential Map — a cycle passing only through
the Map handler — adds nothing and produces no `circular-reference` node,
being cut off by the depth guard instead. -/
theorem claim_c9_visited_only_obj_arr_witness :
    (0 ∈ ([] : List Nat) ∨ (heapSelfObj 0).isObjArr = true)
    ∧ ((analyze cfgD1 [] heapSelfMap (.ref 0) 0 [] []).2 = []
      ∧ ((analyze cfgD1 [] heapSelfMap (.ref 0) 0 [] []).1).noCirc = true) :=
  ⟨claim_c9_visited_only_obj_arr.1 cfgStd [] heapSelfObj (.ref 0) 0 [] [] 0 (by decide),
    claim_c9_visited_only_obj_arr.2 cfgD1 heapSelfMap (.ref 0) 0 [] (fun _ => rfl)⟩


theorem pathOf_analyze (cfg : Config) (heap : Heap) (v : Value) (depth : Nat)
    (path : List Key) (vis : List Nat) :
    pathOf (analyze cfg [] heap v depth path vis).1 = path := by
  by_cases hd : depth ≤ cfg.maxDepth
  · rw [analyze_eq cfg [] heap v depth path vis hd]
    cases v
    case pos.ref a =>
      cases hh : heap a
      all_goals simp only [dispatch, hh, lookupCustom_nil, List.lookup_nil]
      all_goals repeat' split
      all_goals simp [pathOf]
    all_goals simp [dispatch, pathOf]
  · rw [analyze_depth_exceeded cfg [] heap v depth path vis (by omega)]
    rfl

theorem runProps_paths (f : Value → List Key → List Nat → AnalysisResult × List Nat)
    (cfg : Config) (bp : List Key)
    (hf : ∀ v p vs, pathOf (f v p vs).1 = p) :
    ∀ (props : List PropEntry) (vis : List Nat),
      ∀ pr ∈ (runProps f cfg bp props vis).1, pathOf pr.2 = bp ++ [.str pr.1] := by
  intro props
  induction props with
  | nil => intro vis pr hpr; simp [runProps] at hpr
  | cons p rest ih =>
    intro vis pr hpr
    simp only [runProps] at hpr
    split at hpr
    · rcases List.mem_cons.mp hpr with rfl | h
      · simp [pathOf]
      · exact ih _ pr h
    · split at hpr
      · rcases List.mem_cons.mp hpr with rfl | h
        · exact hf _ _ _
        · exact ih _ pr h
      · rcases List.mem_cons.mp hpr with rfl | h
        · simp [pathOf]
        · exact ih _ pr h

theorem runSymProps_paths (f : Value → List Key → List Nat → AnalysisResult × List Nat)
    (bp : List Key)
    (hf : ∀ v p vs, pathOf (f v p vs).1 = p) :
    ∀ (sprops : List SymEntry) (vis : List Nat),
      ∀ pr ∈ (runSymProps f bp sprops vis).1, ∃ k : Key, pathOf pr.2 = bp ++ [k] := by
  intro sprops
  induction sprops with
  | nil => intro vis pr hpr; simp [runSymProps] at hpr
  | cons p rest ih =>
    intro vis pr hpr
    simp only [runSymProps] at hpr
    split at hpr
    · rcases List.mem_cons.mp hpr with rfl | h
      · exact ⟨.str (symKey p.description), hf _ _ _⟩
      · exact ih _ pr h
    · rcases List.mem_cons.mp hpr with rfl | h
      · exact ⟨.str (symKey p.description), by simp [pathOf]⟩
      · exact ih _ pr h

theorem runElems_paths (f : Value → List Key → List Nat → AnalysisResult × List Nat)
    (bp : List Key)
    (hf : ∀ v p vs, pathOf (f v p vs).1 = p) :
    ∀ (l : List (Nat × Value)) (vis : List Nat),
      List.Forall₂ (fun r (q : Nat × Value) => pathOf r = bp ++ [.idx q.1])
        (runElems f bp l vis).1 l := by
  intro l
  induction l with
  | nil => intro vis; simp only [runElems]; exact List.Forall₂.nil
  | cons p rest ih =>
    intro vis
    obtain ⟨i, v⟩ := p
    simp only [runElems]
    exact List.Forall₂.cons (hf _ _ _) (ih _)

theorem runPairs_paths (f : Value → List Key → List Nat → AnalysisResult × List Nat)
    (bp : List Key)
    (hf : ∀ v p vs, pathOf (f v p vs).1 = p) :
    ∀ (l : List (Value × Value)) (vis : List Nat),
      ∀ pr ∈ (runPairs f bp l vis).1, pathOf pr.1 = bp ∧ pathOf pr.2 = bp := by
  intro l
  induction l with
  | nil => intro vis pr hpr; simp [runPairs] at hpr
  | cons p rest ih =>
    intro vis pr hpr
    obtain ⟨k, v⟩ := p
    simp only [runPairs] at hpr
    rcases List.mem_cons.mp hpr with rfl | h
    · exact ⟨hf _ _ _, hf _ _ _⟩
    · exact ih _ pr h

theorem runVals_paths (f : Value → List Key → List Nat → AnalysisResult × List Nat)
    (bp : List Key)
    (hf : ∀ v p vs, pathOf (f v p vs).1 = p) :
    ∀ (l : List Value) (vis : List Nat),
      ∀ r ∈ (runVals f bp l vis).1, pathOf r = bp := by
  intro l
  induction l with
  | nil => intro vis r hr; simp [runVals] at hr
  | cons v rest ih =>
    intro vis r hr
    simp only [runVals] at hr
    rcases List.mem_cons.mp hr with rfl | h
    · exact hf _ _ _
    · exact ih _ r h



/-- Counterexample to C5 as stated: the Map entry results keep the Map's own
path.  For `new Map([[1, 2]])` at the root, the entry's key result carries
path `[]`, equal to its parent's path rather than the parent's path with one
key appended (the built-in Map/Set handlers recurse with `depth + 1` but do
not extend `context.path`). -/
theorem claim_c5_counterexample :
    analyzeTop cfgStd [] heapMap1 (.ref 0) =
      .mapR 1 (.somePR (.cons (.primitive "number" (.num 1) [])
        (.primitive "number" (.num 2) []) .nil)) []
    ∧ pathOf (.primitive "number" (.num 1) ([] : List Key)) =
        pathOf (analyzeTop cfgStd [] heapMap1 (.ref 0))
    ∧ ∀ k : Key, pathOf (.primitive "number" (.num 1) ([] : List Key)) ≠
        pathOf (analyzeTop cfgStd [] heapMap1 (.ref 0)) ++ [k] := by
  refine ⟨by decide, by decide, fun k => ?_⟩
  have h : pathOf (analyzeTop cfgStd [] heapMap1 (.ref 0)) = [] := by decide
  rw [h]
  simp [pathOf]

/-- C5 (amended): the root result's path is empty, and object property
results (including accessor and per-property error results), symbol property
results and array element results each carry their parent's path with exactly
one key or index appended; Map entry key/value results and Set member
results, however, inherit the parent's path unchanged — the built-in Map/Set
handlers increment the depth without extending the path. -/
theorem claim_c5_amended_paths :
    (∀ (cfg : Config) (heap : Heap) (v : Value), pathOf (analyzeTop cfg [] heap v) = [])
    ∧ (∀ (cfg : Config) (heap : Heap) (d : Nat) (bp : List Key)
        (props : List PropEntry) (vis : List Nat),
      ∀ pr ∈ (runProps (fun v2 p2 vs => analyze cfg [] heap v2 d p2 vs) cfg bp props vis).1,
        pathOf pr.2 = bp ++ [.str pr.1])
    ∧ (∀ (cfg : Config) (heap : Heap) (d : Nat) (bp : List Key)
        (sprops : List SymEntry) (vis : List Nat),
      ∀ pr ∈ (runSymProps (fun v2 p2 vs => analyze cfg [] heap v2 d p2 vs) bp sprops vis).1,
        ∃ k : Key, pathOf pr.2 = bp ++ [k])
    ∧ (∀ (cfg : Config) (heap : Heap) (d : Nat) (bp : List Key)
        (l : List (Nat × Value)) (vis : List Nat),
      List.Forall₂ (fun r (q : Nat × Value) => pathOf r = bp ++ [.idx q.1])
        (runElems (fun v2 p2 vs => analyze cfg [] heap v2 d p2 vs) bp l vis).1 l)
    ∧ (∀ (cfg : Config) (heap : Heap) (d : Nat) (bp : List Key)
        (l : List (Value × Value)) (vis : List Nat),
      ∀ pr ∈ (runPairs (fun v2 p2 vs => analyze cfg [] heap v2 d p2 vs) bp l vis).1,
        pathOf pr.1 = bp ∧ pathOf pr.2 = bp)
    ∧ (∀ (cfg : Config) (heap : Heap) (d : Nat) (bp : List Key)
        (l : List Value) (vis : List Nat),
      ∀ r ∈ (runVals (fun v2 p2 vs => analyze cfg [] heap v2 d p2 vs) bp l vis).1,
        pathOf r = bp) := by
  refine ⟨?_, ?_, ?_, ?_, ?_, ?_⟩
  · intro cfg heap v
    exact pathOf_analyze cfg heap v 0 [] []
  · intro cfg heap d bp props vis
    exact runProps_paths _ cfg bp (fun v2 p2 vs => pathOf_analyze cfg heap v2 d p2 vs) props vis
  · intro cfg heap d bp sprops vis
    exact runSymProps_paths _ bp (fun v2 p2 vs => pathOf_analyze cfg heap v2 d p2 vs) sprops vis
  · intro cfg heap d bp l vis
    exact runElems_paths _ bp (fun v2 p2 vs => pathOf_analyze cfg heap v2 d p2 vs) l vis
  · intro cfg heap d bp l vis
    exact runPairs_paths _ bp (fun v2 p2 vs => pathOf_analyze cfg heap v2 d p2 vs) l vis
  · intro cfg heap d bp l vis
    exact runVals_paths _ bp (fun v2 p2 vs => pathOf_analyze cfg heap v2 d p2 vs) l vis

/-- Witness for C5 (amended): the root path of a concrete analysis is empty,
and a concrete property descent appends exactly the property's key. -/
theorem claim_c5_amended_paths_witness :
    pathOf (analyzeTop cfgStd [] heapNested (.ref 0)) = []
    ∧ pathOf (.primitive "number" (.num 1) [.str "z", .str "p"] : AnalysisResult) =
        [.str "z"] ++ [.str "p"] := by
  constructor
  · exact claim_c5_amended_paths.1 cfgStd heapNested (.ref 0)
  · have := claim_c5_amended_paths.2.1 cfgStd (fun _ => .promise) 3 [.str "z"]
      [dataProp "p" (.num 1)] [] ("p", .primitive "number" (.num 1) [.str "z", .str "p"])
      (by decide)
    exact this



theorem updateTypeMap_fresh (r : AnalysisResult) (i : Nat) :
    ∀ (m : List (AnalysisResult × Nat × List Nat)), (∀ e ∈ m, e.1 ≠ r) →
      updateTypeMap m r i = m ++ [(r, 1, [i])] := by
  intro m
  induction m with
  | nil => intro _; rfl
  | cons e rest ih =>
    intro h
    obtain ⟨r0, c, idxs⟩ := e
    simp only [updateTypeMap]
    rw [if_neg (h (r0, c, idxs) (List.mem_cons_self _ _)),
      ih (fun e2 he2 => h e2 (List.mem_cons_of_mem _ he2))]
    rfl

theorem buildTypeMapFrom_nodup :
    ∀ (rs : List AnalysisResult) (m : List (AnalysisResult × Nat × List Nat)) (i : Nat),
      rs.Nodup → (∀ e ∈ m, ∀ r ∈ rs, e.1 ≠ r) →
      buildTypeMapFrom m i rs = m ++ singleEntries i rs := by
  intro rs
  induction rs with
  | nil => intro m i _ _; simp [buildTypeMapFrom, singleEntries]
  | cons r rest ih =>
    intro m i hnd hfresh
    simp only [buildTypeMapFrom, singleEntries]
    rw [updateTypeMap_fresh r i m (fun e he => hfresh e he r (List.mem_cons_self _ _))]
    rw [ih (m ++ [(r, 1, [i])]) (i + 1) (List.nodup_cons.mp hnd).2 ?_]
    · simp
    · intro e he r2 hr2
      rcases List.mem_append.mp he with h | h
      · exact hfresh e h r2 (List.mem_cons_of_mem _ hr2)
      · simp only [List.mem_singleton] at h
        subst h
      -- e = (r, 1, [i]): e.1 = r ≠ r2 since r ∉ rest
        intro hc
        have hc2 : r = r2 := hc
        exact (List.nodup_cons.mp hnd).1 (by rw [hc2]; exact hr2)

theorem singleEntries_map_freq (len : Nat) :
    ∀ (rs : List AnalysisResult) (i : Nat),
      (singleEntries i rs).map (fun e => (e.1, mkRat (e.2.1 : Int) len, e.2.1, e.2.2)) =
        singleGroups len i rs := by
  intro rs
  induction rs with
  | nil => intro i; rfl
  | cons r rest ih =>
    intro i
    simp only [singleEntries, singleGroups, List.map_cons, ih (i + 1)]
    rfl

theorem sortByCountDesc_singleGroups (len : Nat) :
    ∀ (rs : List AnalysisResult) (i : Nat),
      sortByCountDesc (singleGroups len i rs) = singleGroups len i rs := by
  intro rs
  induction rs with
  | nil => intro i; rfl
  | cons r rest ih =>
    intro i
    simp only [singleGroups, sortByCountDesc, ih (i + 1)]
    cases rest with
    | nil => rfl
    | cons r2 rest2 => simp [singleGroups, insertByCount]

theorem groupElems_nodup (len : Nat) (rs : List AnalysisResult) (hnd : rs.Nodup) :
    groupElems len rs = singleGroups len 0 rs := by
  unfold groupElems buildTypeMap
  rw [buildTypeMapFrom_nodup rs [] 0 hnd (by simp)]
  simp only [List.nil_append]
  rw [singleEntries_map_freq len rs 0, sortByCountDesc_singleGroups len rs 0]

theorem forall₂_mem_left {α β : Type} {R : α → β → Prop} :
    ∀ {l1 : List α} {l2 : List β}, List.Forall₂ R l1 l2 → ∀ a ∈ l1, ∃ b ∈ l2, R a b := by
  intro l1 l2 h
  induction h with
  | nil => intro a ha; simp at ha
  | @cons x y l1t l2t hr ht ih =>
    intro a ha
    rcases List.mem_cons.mp ha with rfl | ha2
    · exact ⟨y, List.mem_cons_self _ _, hr⟩
    · obtain ⟨b, hb, hrb⟩ := ih a ha2
      exact ⟨b, List.mem_cons_of_mem _ hb, hrb⟩

theorem nodup_of_idx_paths (bp : List Key) :
    ∀ {rs : List AnalysisResult} {l : List (Nat × Value)},
      List.Forall₂ (fun r (q : Nat × Value) => pathOf r = bp ++ [.idx q.1]) rs l →
      (l.map Prod.fst).Nodup → rs.Nodup := by
  intro rs l h
  induction h with
  | nil => intro _; exact List.nodup_nil
  | @cons r q rst lt hr ht ih =>
    intro hnd
    simp only [List.map_cons, List.nodup_cons] at hnd
    refine List.nodup_cons.mpr ⟨?_, ih hnd.2⟩
    intro hmem
    obtain ⟨q2, hq2, hrq2⟩ := forall₂_mem_left ht r hmem
    rw [hr] at hrq2
    have heq : Key.idx q.1 = Key.idx q2.1 := by
      have := List.append_cancel_left hrq2
      exact (List.cons.injEq _ _ _ _).mp this |>.1
    have : q.1 = q2.1 := by injection heq
    exact hnd.1 (this ▸ List.mem_map_of_mem Prod.fst hq2)

theorem analyze_array_all_singleton (cfg : Config) (heap : Heap) (a : Nat)
    (elems : List Value) (depth : Nat) (path : List Key) (vis : List Nat)
    (hh : heap a = .arr elems) (hd : depth ≤ cfg.maxDepth) :
    (analyze cfg [] heap (.ref a) depth path vis).1 =
      .arrayR elems.length (GroupList.ofList (singleGroups elems.length 0
        (runElems (fun v2 p2 vs => analyze cfg [] heap v2 (depth + 1) p2 vs)
          path elems.enum (visitedAdd a vis)).1)) path := by
  rw [analyze_eq cfg [] heap (.ref a) depth path vis hd]
  simp only [dispatch, hh]
  have hnd : ((runElems (fun v2 p2 vs => analyze cfg [] heap v2 (depth + 1) p2 vs)
      path elems.enum (visitedAdd a vis)).1).Nodup := by
    refine nodup_of_idx_paths path
      (runElems_paths _ path (fun v2 p2 vs => pathOf_analyze cfg heap v2 (depth + 1) p2 vs)
        elems.enum (visitedAdd a vis)) ?_
    exact List.nodup_enum_map_fst elems
  rw [groupElems_nodup elems.length _ hnd]



/-- C1 (code bug): the element grouping of `analyzeArrayElements` is keyed by
`JSON.stringify(elementType)`, and every element's computed `AnalysisResult`
contains its own `path`, which ends in that element's index.  Two elements of
identical structural shape at different indices therefore serialize
differently and are never grouped: for `[1, "x", 1]` the code produces three
groups of count 1 and frequency 1/3 — not, as the claim, the source's own
`ArrayAnalysisResult` documentation example (src/index.ts lines 98-113), and
the schema adapters (which treat a single group as a homogeneous array)
expect, two groups with counts 2 and 1 and indices `[0, 2]` / `[1]`.  The
second conjunct shows the degeneracy universally: for every array whatsoever,
every group has count 1, frequency `1/length`, and a singleton index list. -/
theorem claim_c1_grouping_code_bug :
    analyzeTop cfgStd [] heapTwoShapes (.ref 0) =
      .arrayR 3 (.cons (.primitive "number" (.num 1) [.idx 0]) (mkRat 1 3) 1 [0]
        (.cons (.primitive "string" (.str "x") [.idx 1]) (mkRat 1 3) 1 [1]
        (.cons (.primitive "number" (.num 1) [.idx 2]) (mkRat 1 3) 1 [2] .nil))) []
    ∧ (∀ (cfg : Config) (heap : Heap) (a : Nat) (elems : List Value)
        (depth : Nat) (path : List Key) (vis : List Nat),
      heap a = .arr elems → depth ≤ cfg.maxDepth →
      (analyze cfg [] heap (.ref a) depth path vis).1 =
        .arrayR elems.length (GroupList.ofList (singleGroups elems.length 0
          (runElems (fun v2 p2 vs => analyze cfg [] heap v2 (depth + 1) p2 vs)
            path elems.enum (visitedAdd a vis)).1)) path) :=
  ⟨by decide, analyze_array_all_singleton⟩

/-- Witness for C1: the universal singleton-group statement applied to the
failing input `[1, "x", 1]`. -/
theorem claim_c1_grouping_code_bug_witness :
    (analyze cfgStd [] heapTwoShapes (.ref 0) 0 [] []).1 =
      .arrayR 3 (GroupList.ofList (singleGroups 3 0
        (runElems (fun v2 p2 vs => analyze cfgStd [] heapTwoShapes v2 1 p2 vs)
          [] [.num 1, .str "x", .num 1].enum (visitedAdd 0 [])).1)) [] :=
  claim_c1_grouping_code_bug.2 cfgStd heapTwoShapes 0 [.num 1, .str "x", .num 1]
    0 [] [] rfl (by decide)


end TypeExplorer
